import Mathlib

/-!
# Verification of the attendance-app ingestion and aggregation core

Shallow embedding of the TypeScript backend of the attendance tracker:

* `backend/src/utils/excelProcessor.ts` — spreadsheet layout detection,
  row extraction, and the bulk save pipeline (`saveToDatabase`);
* `backend/src/db/index.ts` — the user-scoped PostgreSQL query layer;
* `backend/src/routes/upload.ts` — the multi-file upload route;
* the pg `AttendanceService` — cached statistics, record deletion,
  clear-all.

JavaScript numbers are modelled as rationals (`ℚ`), strings as Lean
`String`s over their character lists, database tables as lists of row
structures, and the in-memory cache as an association list.
-/

namespace AttendanceApp

/-! ## String helpers (JS `toUpperCase`, `trim`, `includes`) -/

/-- JS `String.prototype.toUpperCase` restricted to the ASCII characters
that appear in the data (maps each character with `Char.toUpper`). -/
def upStr (s : String) : String :=
  String.mk (s.toList.map Char.toUpper)

/-- JS `String.prototype.toLowerCase` for ASCII characters. -/
def lowStr (s : String) : String :=
  String.mk (s.toList.map Char.toLower)

/-- Whitespace characters trimmed by JS `String.prototype.trim`. -/
def isWsChar (c : Char) : Bool :=
  c = ' ' || c = '\t' || c = '\n' || c = '\r'

/-- JS `String.prototype.trim`: strip leading and trailing whitespace. -/
def trimStr (s : String) : String :=
  String.mk (((s.toList.dropWhile isWsChar).reverse.dropWhile isWsChar).reverse)

/-- `pat` occurs as a contiguous substring of `hay`:
JS `String.prototype.includes`. -/
def strHas (hay pat : String) : Bool :=
  hay.toList.tails.any (fun t => pat.toList.isPrefixOf t)

/-! ## Cell values

An ExcelJS cell reaching the row extractor is `null`/`undefined`, a
number, or a string.  JS `NaN`/`Infinity` never reach the extractor as a
`num` because the extractor re-checks finiteness; `Cell.num` therefore
carries a finite rational. -/

inductive Cell where
  | empty : Cell
  | num (q : ℚ) : Cell
  | str (s : String) : Cell
deriving DecidableEq

/-- JS digit test (code points 48–57). -/
def isDigitCh (c : Char) : Bool :=
  48 ≤ c.toNat && c.toNat ≤ 57

/-- Parse an unsigned decimal integer, empty list means failure. -/
def parseDigits (cs : List Char) : Option ℕ :=
  if cs = [] then
    none
  else if cs.all isDigitCh then
    some (cs.foldl (fun acc c => acc * 10 + (c.toNat - '0'.toNat)) 0)
  else
    none

/-- Parse the fractional part `ds` as a rational in `[0,1)`. -/
def parseFrac (ds : List Char) : Option ℚ :=
  match parseDigits ds with
  | some n => some ((n : ℚ) / ((10 : ℚ) ^ ds.length))
  | none => none

/-- Parse an unsigned decimal literal, with an optional single decimal
point.  `none` models `NaN`. -/
def parseNumBody (cs : List Char) : Option ℚ :=
  let intPart := cs.takeWhile (fun c => !(c = '.'))
  match cs.dropWhile (fun c => !(c = '.')) with
  | [] => (parseDigits intPart).map (fun n => (n : ℚ))
  | _ :: fracPart =>
    if fracPart.contains '.' then
      none
    else
      match intPart, fracPart with
      | [], [] => none
      | [], f => parseFrac f
      | i, [] => (parseDigits i).map (fun n => (n : ℚ))
      | i, f =>
        match parseDigits i, parseFrac f with
        | some n, some q => some ((n : ℚ) + q)
        | _, _ => none

/-- JS `Number(string)` for the decimal literals that occur in attendance
cells: trims whitespace, accepts an optional sign, an integer part, and an
optional fractional part; the empty (all-whitespace) string converts to
`0`.  `none` models `NaN`.  (Hexadecimal and exponent forms, which never
occur in attendance spreadsheets, are not modelled.) -/
def parseNumStr (s : String) : Option ℚ :=
  match (trimStr s).toList with
  | [] => some 0
  | '-' :: rest => (parseNumBody rest).map (fun q => -q)
  | '+' :: rest => parseNumBody rest
  | cs => parseNumBody cs

/-- JS `Number(cellValue)` (`none` = `NaN`): numbers pass through,
strings are parsed, `null` converts to `0`. -/
def cellToNum : Cell → Option ℚ
  | Cell.empty => some 0
  | Cell.num q => some q
  | Cell.str s => parseNumStr s

/-! ## Row extractor (`ExcelProcessor.processWorksheet`, lines 190–255)

`invalidCell` is the `invalid` closure of line 224; `extractPercentage`
is the percentage branch of lines 233–238; `extractCourseTuple` is the
body of the per-course loop (lines 218–251); `processDataRow` is the body
of the per-row loop (lines 197–255) after the student identity cells have
been read. -/

/-- Line 224: `val === null || val === undefined || String(val).trim() === ''
|| String(val).trim() === '-' || String(val).toUpperCase() === 'NAN'`.
A `Cell.num` is a finite JS number, and `String(x)` of a finite number is
never empty, `"-"`, or `"NaN"`, so the three string tests are false for it. -/
def invalidCell : Cell → Bool
  | Cell.empty => true
  | Cell.num _ => false
  | Cell.str s => trimStr s = "" || trimStr s = "-" || upStr s = "NAN"

/-- Lines 233–238: use the percentage cell verbatim when it is valid and
parses to a finite number, otherwise derive `attended / conducted * 100`
(`0` when `conducted` is `0`). -/
def extractPercentage (pctCell : Cell) (attended conducted : ℚ) : ℚ :=
  if invalidCell pctCell then
    if conducted > 0 then attended / conducted * 100 else 0
  else
    match cellToNum pctCell with
    | some q => q
    | none => if conducted > 0 then attended / conducted * 100 else 0

/-- One attendance tuple produced by the row extractor. -/
structure AttendanceData where
  registration_no : String
  course_code : String
  course_name : String
  attended_periods : ℚ
  conducted_periods : ℚ
  attendance_percentage : ℚ
deriving DecidableEq

/-- One student tuple produced by the row extractor. -/
structure StudentData where
  admission_no : String
  registration_no : String
  name : String
deriving DecidableEq

/-- The three cells of one course column group in a data row. -/
structure CourseCells where
  code : String
  name : String
  attendedCell : Cell
  conductedCell : Cell
  percentageCell : Cell
deriving DecidableEq

/-- Lines 219–247: extract the attendance tuple for one course of a data
row, or nothing when the attended/conducted cells are invalid, not
finite, or the conducted count exceeds `1000`. -/
def extractCourseTuple (registration_no : String) (cc : CourseCells) :
    Option AttendanceData :=
  if invalidCell cc.attendedCell || invalidCell cc.conductedCell then
    none
  else
    match cellToNum cc.attendedCell, cellToNum cc.conductedCell with
    | some attended, some conducted =>
      if conducted > 1000 then
        none
      else
        some
          { registration_no := registration_no
            course_code := cc.code
            course_name := cc.name
            attended_periods := attended
            conducted_periods := conducted
            attendance_percentage :=
              extractPercentage cc.percentageCell attended conducted }
    | _, _ => none

/-- Lines 198–208: the raw identity cells after `String(...).trim()`, and
the skip conditions for rejected rows.  Returns `true` when the row is
rejected entirely. -/
def rowRejected (registration_no student_name : String) : Bool :=
  let reg := trimStr registration_no
  let name := trimStr student_name
  let regUpper := upStr reg
  let nameUpper := upStr name
  reg = "" || regUpper = "UNDEFINED" || regUpper = "NAN" || regUpper = "-" ||
    strHas nameUpper "CUMULATIVE" || strHas nameUpper "TOTAL" ||
    strHas nameUpper "SUMMARY" ||
    strHas regUpper "CUMULATIVE" || strHas regUpper "TOTAL"

/-- Lines 197–255, one data row: produce the student tuple and attendance
tuples, or nothing at all when the row is rejected. -/
def processDataRow (admission_no registration_no student_name : String)
    (courseCells : List CourseCells) :
    List StudentData × List AttendanceData :=
  if rowRejected registration_no student_name then
    ([], [])
  else
    let reg := trimStr registration_no
    ([{ admission_no := trimStr admission_no
        registration_no := reg
        name := trimStr student_name }],
      courseCells.filterMap (extractCourseTuple reg))

/-- Restatement of the spec sentence for the percentage rule (claim C7):
the value of the percentage cell when it is present (non-empty, not
all-whitespace) and parses as a finite number.  Used only to compare the
source-derived `extractPercentage` against the specification wording. -/
def presentFiniteValue : Cell → Option ℚ
  | Cell.empty => none
  | Cell.num q => some q
  | Cell.str s => if trimStr s = "" then none else parseNumStr s

/-! ## Spreadsheet layout detector
(`ExcelProcessor.extractCourseInfoFromHeader`, lines 55–92)

A worksheet is a list of rows (index `i` is Excel row `i + 1`); a row is
the list of its non-empty cells paired with their column numbers, in
column order — exactly what `eachCell({ includeEmpty: false })`
iterates. -/

/-- The `[A-Z0-9]` character class of the course-code pattern. -/
def isCodeCh (c : Char) : Bool :=
  isDigitCh c || (65 ≤ c.toNat && c.toNat ≤ 90)

/-- Take exactly `n` characters satisfying `p` from the front. -/
def takeExactly (p : Char → Bool) : ℕ → List Char → Option (List Char × List Char)
  | 0, cs => some ([], cs)
  | _ + 1, [] => none
  | n + 1, c :: cs =>
    if p c then
      (takeExactly p n cs).map (fun t => (c :: t.1, t.2))
    else
      none

/-- Match the tail of `(\d{2}[A-Z0-9]{4,5})\s*-\s*(.+)` after the two
digits, taking exactly `k` alphanumerics.  Returns the raw captures
(code body after the digits, name).  When everything after the dash is
whitespace, the regex backtracks `\s*` so that `(.+)` captures exactly
the final whitespace character. -/
def matchCourseTail (k : ℕ) (d1 d2 : Char) (rest : List Char) :
    Option (String × String) :=
  match takeExactly isCodeCh k rest with
  | none => none
  | some (codeTail, rest2) =>
    match (rest2.dropWhile isWsChar) with
    | '-' :: rest4 =>
      match rest4.dropWhile isWsChar with
      | [] =>
        match rest4.getLast? with
        | some w => some (String.mk (d1 :: d2 :: codeTail), String.mk [w])
        | none => none
      | rest5 => some (String.mk (d1 :: d2 :: codeTail), String.mk rest5)
    | _ => none

/-- Match `(\d{2}[A-Z0-9]{4,5})\s*-\s*(.+)` at the start of `cs`,
greedily trying five alphanumerics before four. -/
def matchCourseAt (cs : List Char) : Option (String × String) :=
  match cs with
  | d1 :: d2 :: rest =>
    if isDigitCh d1 && isDigitCh d2 then
      match matchCourseTail 5 d1 d2 rest with
      | some r => some r
      | none => matchCourseTail 4 d1 d2 rest
    else
      none
  | _ => none

/-- JS `String.prototype.match` with the unanchored course pattern: the
leftmost position where the pattern matches wins. -/
def scanCourseMatch : List Char → Option (String × String)
  | [] => none
  | c :: rest =>
    match matchCourseAt (c :: rest) with
    | some r => some r
    | none => scanCourseMatch rest

/-- A course code/name pair detected in the header. -/
structure CourseInfo where
  code : String
  name : String
deriving DecidableEq

/-- Lines 66–77: a header cell yields a course when it is a non-empty
string matching the course pattern; both captures are trimmed. -/
def parseCourseCell : Cell → Option CourseInfo
  | Cell.str s =>
    (scanCourseMatch s.toList).map (fun r => ⟨trimStr r.1, trimStr r.2⟩)
  | _ => none

/-- A worksheet row: non-empty cells with their column numbers. -/
def SheetRow : Type := List (ℕ × Cell)

/-- A worksheet: list of rows, index `i` is Excel row `i + 1`. -/
def Sheet : Type := List (List (ℕ × Cell))

/-- `sheet.getRow n` (1-based). -/
def getSheetRow (sheet : Sheet) (n : ℕ) : List (ℕ × Cell) :=
  sheet.getD (n - 1) []

/-- One `eachCell` callback invocation of lines 65–82: add the cell's
course to the row mapping unless its code is already in the accumulated
mapping or earlier in this row. -/
def headerRowStep (courses : List (ℕ × CourseInfo))
    (acc : List (ℕ × CourseInfo) × ℕ) (cell : ℕ × Cell) :
    List (ℕ × CourseInfo) × ℕ :=
  match parseCourseCell cell.2 with
  | some info =>
    if courses.any (fun p => p.2.code = info.code) ||
        acc.1.any (fun p => p.2.code = info.code) then
      acc
    else
      (acc.1 ++ [(cell.1, info)], acc.2 + 1)
  | none => acc

/-- Lines 62–82, the `eachCell` pass over one candidate header row:
collect `(colNumber, course)` pairs whose codes are neither in the
already-accumulated mapping nor earlier in this row, and count them. -/
def headerRowScan (courses : List (ℕ × CourseInfo))
    (row : List (ℕ × Cell)) : List (ℕ × CourseInfo) × ℕ :=
  row.foldl (headerRowStep courses) ([], 0)

/-- One assignment of `Object.assign` on integer-keyed objects: an
existing key is overwritten in place, a new key is appended. -/
def objectAssignStep (acc : List (ℕ × CourseInfo)) (p : ℕ × CourseInfo) :
    List (ℕ × CourseInfo) :=
  if acc.any (fun q => q.1 = p.1) then
    acc.map (fun q => if q.1 = p.1 then p else q)
  else
    acc ++ [p]

/-- JS `Object.assign(courses, rowCourses)` on integer-keyed objects. -/
def objectAssign (base updates : List (ℕ × CourseInfo)) :
    List (ℕ × CourseInfo) :=
  updates.foldl objectAssignStep base

/-- The candidate header rows: `for (rowNum = 4; rowNum <= min(7, rowCount))`. -/
def headerRowNums (sheet : Sheet) : List ℕ :=
  (List.range (min 7 sheet.length + 1)).filter (fun n => 4 ≤ n)

/-- Lines 83–87 for one candidate row: merge the row's newly-seen
courses into the accumulated mapping when their count exceeds the size
of the mapping so far. -/
def headerFoldStep (sheet : Sheet) (courses : List (ℕ × CourseInfo))
    (rowNum : ℕ) : List (ℕ × CourseInfo) :=
  if (headerRowScan courses (getSheetRow sheet rowNum)).2 > courses.length then
    objectAssign courses (headerRowScan courses (getSheetRow sheet rowNum)).1
  else
    courses

/-- Lines 55–92: scan candidate rows 4–7; a row whose count of
newly-seen pattern matches exceeds the size of the accumulated mapping
has its matches merged in (`Object.assign`). -/
def extractCourseInfoFromHeader (sheet : Sheet) : List (ℕ × CourseInfo) :=
  (headerRowNums sheet).foldl (headerFoldStep sheet) []

/-- Restatement of the claim-C6 sentence: score each candidate row
independently by its count of pattern-matching cells and keep exactly
the mapping of the highest-scoring row (first row wins ties), with
duplicate codes inside that row suppressed first-occurrence-wins.  Used
only to compare against the source-derived
`extractCourseInfoFromHeader`. -/
def rowScore (row : List (ℕ × Cell)) : ℕ :=
  (row.filterMap (fun cell => parseCourseCell cell.2)).length

/-- The single-best-row mapping described by claim C6. -/
def bestRowMapping (sheet : Sheet) : List (ℕ × CourseInfo) :=
  let best := (headerRowNums sheet).foldl
    (fun acc rowNum =>
      if rowScore (getSheetRow sheet rowNum) > acc.1 then
        (rowScore (getSheetRow sheet rowNum), rowNum)
      else
        acc)
    (0, 0)
  (headerRowScan [] (getSheetRow sheet best.2)).1

/-- The two-header-row worksheet used to refute claim C6: row 4 carries
one course, row 5 carries two different courses. -/
def demoSheet6 : Sheet :=
  [[], [], [],
    [(2, Cell.str "21CS101 - Alpha")],
    [(3, Cell.str "21CS102 - Beta"), (4, Cell.str "21CS103 - Gamma")]]

/-! ## Database model for `ExcelProcessor.saveToDatabase`
(lines 271–451 of `excelProcessor.ts`)

Tables are lists of row structures with id counters for the `SERIAL`
primary keys.  Bulk inserts use the conflict-tolerant
`ON CONFLICT ... DO NOTHING` semantics of
`courseQueries.createMany` / `studentQueries.createMany` /
`attendanceRecordQueries.createMany` in `db/index.ts` (the natural-key
uniqueness constraints of `runMigrations`), which is also what Prisma's
`skipDuplicates: true` does on the same constraints.  Timestamps and the
`processing_time_ms` metric are not modelled (wall-clock time). -/

/-- First-occurrence-preserving deduplication: JS `new Set(xs)` turned
back into an array, and the key set of a JS `Map` built from rows. -/
def dedupAcc {α : Type} [DecidableEq α] (seen : List α) : List α → List α
  | [] => []
  | x :: xs =>
    if seen.contains x then
      dedupAcc seen xs
    else
      x :: dedupAcc (x :: seen) xs

/-- A row of the `courses` table as seen by `saveToDatabase`. -/
structure DBCourse where
  id : ℕ
  course_code : String
  course_name : String
deriving DecidableEq

/-- A row of the `students` table as seen by `saveToDatabase`. -/
structure DBStudent where
  id : ℕ
  admission_no : String
  registration_no : String
  name : String
deriving DecidableEq

/-- A row of the `attendance_records` table as seen by `saveToDatabase`. -/
structure DBAttendance where
  student_id : ℕ
  course_id : ℕ
  attended_periods : ℚ
  conducted_periods : ℚ
  attendance_percentage : ℚ
deriving DecidableEq

/-- The database state visible to one `saveToDatabase` call. -/
structure DB where
  courses : List DBCourse
  students : List DBStudent
  attendance : List DBAttendance
  nextCourseId : ℕ
  nextStudentId : ℕ
deriving DecidableEq

/-- The `ProcessedData` produced by `processWorksheet`. -/
structure ProcessedData where
  students : List StudentData
  attendance : List AttendanceData
  courses : List (ℕ × CourseInfo)
deriving DecidableEq

/-- The `UploadMetrics` returned on success.  The two `existing` counts
are integers because JS can produce negative values for them (duplicate
registration numbers in one file). -/
structure UploadMetrics where
  courses_new : ℕ
  courses_existing : ℤ
  students_new : ℕ
  students_existing : ℤ
  total_in_file : ℕ
  inserted : ℕ
  skipped_min_periods : ℕ
  skipped_duplicate : ℕ
deriving DecidableEq

/-- `this.MIN_CONDUCTED_PERIODS` (line 47). -/
def minConductedPeriods : ℚ := 5

/-- Conflict-tolerant batched insert (`INSERT ... ON CONFLICT DO
NOTHING`): each item is appended as a fresh row — consuming one id from
the counter — unless a row with its key already exists, including rows
appended earlier in the same batch. -/
def conflictInsert {ρ ι κ : Type} [DecidableEq κ] (keyR : ρ → κ)
    (keyI : ι → κ) (mkRow : ℕ → ι → ρ) :
    List ρ × ℕ → List ι → List ρ × ℕ
  | acc, [] => acc
  | acc, it :: rest =>
    if acc.1.any (fun r => keyR r = keyI it) then
      conflictInsert keyR keyI mkRow acc rest
    else
      conflictInsert keyR keyI mkRow (acc.1 ++ [mkRow acc.2 it], acc.2 + 1) rest

/-- Output of the course reconciliation step (lines 280–305): the
updated database, the rows backing `courseMap`, `newCourseCodes.length`,
and `courseMap.size`. -/
structure CoursePhaseOut where
  db : DB
  rows : List DBCourse
  newCount : ℕ
  mapSize : ℕ
deriving DecidableEq

/-- Output of the student reconciliation step (lines 307–333). -/
structure StudentPhaseOut where
  db : DB
  rows : List DBStudent
  newCount : ℕ
  mapSize : ℕ
deriving DecidableEq

/-- Line 282: deduplicated incoming course codes. -/
def incomingCodesOf (pd : ProcessedData) : List String :=
  dedupAcc [] (pd.courses.map (fun p => p.2.code))

/-- Lines 283–285: prefetch of existing courses. -/
def courseExisting (db : DB) (pd : ProcessedData) : List DBCourse :=
  db.courses.filter (fun c => (incomingCodesOf pd).contains c.course_code)

/-- Line 288: incoming codes with no existing row. -/
def newCourseCodes (db : DB) (pd : ProcessedData) : List String :=
  (incomingCodesOf pd).filter (fun code =>
    ((courseExisting db pd).find? (fun c => c.course_code = code)).isNone)

/-- Lines 292–295: rows to create for the missing codes (the `find` is
guaranteed to succeed because each code came from `pd.courses`). -/
def coursesToCreate (db : DB) (pd : ProcessedData) : List CourseInfo :=
  (newCourseCodes db pd).map (fun code =>
    ((pd.courses.map Prod.snd).find? (fun c => c.code = code)).getD
      ⟨code, ""⟩)

/-- Line 297: the conflict-tolerant bulk insert of new courses. -/
def courseInsertResult (db : DB) (pd : ProcessedData) : List DBCourse × ℕ :=
  conflictInsert (fun c => c.course_code) (fun i => i.code)
    (fun n i => ⟨n, i.code, i.name⟩) (db.courses, db.nextCourseId)
    (coursesToCreate db pd)

/-- Lines 280–305: prefetch courses matching the deduplicated incoming
codes, bulk-insert the missing ones, and refresh the map. -/
def coursePhase (db : DB) (pd : ProcessedData) : CoursePhaseOut :=
  if 0 < (newCourseCodes db pd).length then
    ⟨{ db with
        courses := (courseInsertResult db pd).1
        nextCourseId := (courseInsertResult db pd).2 },
      (courseInsertResult db pd).1.filter
        (fun c => (incomingCodesOf pd).contains c.course_code),
      (newCourseCodes db pd).length,
      (dedupAcc [] (((courseInsertResult db pd).1.filter
        (fun c => (incomingCodesOf pd).contains c.course_code)).map
        (fun c => c.course_code))).length⟩
  else
    ⟨db, courseExisting db pd, (newCourseCodes db pd).length,
      (dedupAcc [] ((courseExisting db pd).map
        (fun c => c.course_code))).length⟩

/-- Line 308: incoming registration numbers (`filter(Boolean)` drops
blanks). -/
def incomingRegsOf (pd : ProcessedData) : List String :=
  (pd.students.map (fun s => s.registration_no)).filter (fun r => !(r = ""))

/-- Lines 309–311: prefetch of existing students. -/
def studentExisting (db : DB) (pd : ProcessedData) : List DBStudent :=
  db.students.filter (fun s => (incomingRegsOf pd).contains s.registration_no)

/-- Line 314: file students with no existing row. -/
def newStudentsOf (db : DB) (pd : ProcessedData) : List StudentData :=
  pd.students.filter (fun s =>
    ((studentExisting db pd).find?
      (fun t => t.registration_no = s.registration_no)).isNone)

/-- Lines 317–325: the conflict-tolerant bulk insert of new students. -/
def studentInsertResult (db : DB) (pd : ProcessedData) :
    List DBStudent × ℕ :=
  conflictInsert (fun t => t.registration_no) (fun s => s.registration_no)
    (fun n s => ⟨n, s.admission_no, s.registration_no, s.name⟩)
    (db.students, db.nextStudentId) (newStudentsOf db pd)

/-- Lines 307–333: prefetch students whose registration numbers occur in
the file, bulk-insert the unmatched ones, and refresh the map. -/
def studentPhase (db : DB) (pd : ProcessedData) : StudentPhaseOut :=
  if 0 < (newStudentsOf db pd).length then
    ⟨{ db with
        students := (studentInsertResult db pd).1
        nextStudentId := (studentInsertResult db pd).2 },
      (studentInsertResult db pd).1.filter
        (fun s => (incomingRegsOf pd).contains s.registration_no),
      (newStudentsOf db pd).length,
      (dedupAcc [] (((studentInsertResult db pd).1.filter
        (fun s => (incomingRegsOf pd).contains s.registration_no)).map
        (fun s => s.registration_no))).length⟩
  else
    ⟨db, studentExisting db pd, (newStudentsOf db pd).length,
      (dedupAcc [] ((studentExisting db pd).map
        (fun s => s.registration_no))).length⟩

/-- Lines 364–371 / 386–390: resolve one attendance tuple to a
`(student_id, course_id)` pair through the fetched maps. -/
def resolveTuple (courseRows : List DBCourse) (studentRows : List DBStudent)
    (a : AttendanceData) : Option (ℕ × ℕ) :=
  match studentRows.find? (fun s => s.registration_no = a.registration_no),
      courseRows.find? (fun c => c.course_code = a.course_code) with
  | some s, some c => some (s.id, c.id)
  | _, _ => none

/-- Lines 386–404, one iteration: count a resolved tuple as a duplicate
when its pair is already present, otherwise queue it for insertion;
unresolved tuples are dropped. -/
def attFoldStep (courseRows : List DBCourse) (studentRows : List DBStudent)
    (attendanceSet : List (ℕ × ℕ)) (acc : List DBAttendance × ℕ)
    (a : AttendanceData) : List DBAttendance × ℕ :=
  match resolveTuple courseRows studentRows a with
  | none => acc
  | some key =>
    if attendanceSet.contains key then
      (acc.1, acc.2 + 1)
    else
      (acc.1 ++ [⟨key.1, key.2, a.attended_periods, a.conducted_periods,
        a.attendance_percentage⟩], acc.2)

/-- The rows backing the course map a second upload of `pd` on top of
`db` would use (the map is a pure function of the entity tables). -/
def courseRowsFor (db : DB) (pd : ProcessedData) : List DBCourse :=
  (coursePhase db pd).rows

/-- The rows backing the student map a second upload of `pd` on top of
`db` would use. -/
def studentRowsFor (db : DB) (pd : ProcessedData) : List DBStudent :=
  (studentPhase db pd).rows

/-- Lines 336–339: tuples meeting the minimum conducted-periods
threshold. -/
def filteredAttendanceOf (pd : ProcessedData) : List AttendanceData :=
  pd.attendance.filter (fun a => a.conducted_periods ≥ minConductedPeriods)

/-- Lines 364–371: the resolved `(student_id, course_id)` pairs. -/
def pairsOf (courseRows : List DBCourse) (studentRows : List DBStudent)
    (filtered : List AttendanceData) : List (ℕ × ℕ) :=
  filtered.filterMap (resolveTuple courseRows studentRows)

/-- Lines 373–380: pairs of already-present attendance rows. -/
def attendanceSetOf (att : List DBAttendance) (pairs : List (ℕ × ℕ)) :
    List (ℕ × ℕ) :=
  (att.filter (fun r => pairs.contains (r.student_id, r.course_id))).map
    (fun r => (r.student_id, r.course_id))

/-- Lines 383–404: partition the filtered tuples into rows to insert and
a duplicate count. -/
def attFolded (courseRows : List DBCourse) (studentRows : List DBStudent)
    (attendanceSet : List (ℕ × ℕ)) (filtered : List AttendanceData) :
    List DBAttendance × ℕ :=
  filtered.foldl (attFoldStep courseRows studentRows attendanceSet) ([], 0)

/-- Lines 407–409: the conflict-tolerant bulk insert of attendance rows
(`attendanceRecordQueries.createMany` uses `ON CONFLICT DO NOTHING` on
`(student, course)`). -/
def insertAttendanceRows (att : List DBAttendance)
    (rows : List DBAttendance) : List DBAttendance :=
  (conflictInsert (fun t => (t.student_id, t.course_id))
    (fun r => (r.student_id, r.course_id)) (fun _ r => r) (att, 0) rows).1

/-- The attendance rows a second upload of `pd` on top of `db` would
queue and count (steps 4–5 run against the maps of `courseRowsFor` /
`studentRowsFor`). -/
def attFoldedFor (db : DB) (pd : ProcessedData) : List DBAttendance × ℕ :=
  attFolded (courseRowsFor db pd) (studentRowsFor db pd)
    (attendanceSetOf db.attendance
      (pairsOf (courseRowsFor db pd) (studentRowsFor db pd)
        (filteredAttendanceOf pd)))
    (filteredAttendanceOf pd)

/-- `ExcelProcessor.saveToDatabase` (lines 271–451), success path of one
attempt: reconcile courses and students, filter the minimum-periods
threshold, split the rest into duplicates and fresh inserts, bulk-insert
the fresh rows, and report metrics. -/
def saveToDatabase (db : DB) (pd : ProcessedData) : DB × UploadMetrics :=
  if (filteredAttendanceOf pd).length = 0 then
    ((studentPhase (coursePhase db pd).db pd).db,
      { courses_new := (coursePhase db pd).newCount
        courses_existing := ((coursePhase db pd).mapSize : ℤ) -
          ((coursePhase db pd).newCount : ℤ)
        students_new := (studentPhase (coursePhase db pd).db pd).newCount
        students_existing :=
          ((studentPhase (coursePhase db pd).db pd).mapSize : ℤ) -
          ((studentPhase (coursePhase db pd).db pd).newCount : ℤ)
        total_in_file := pd.attendance.length
        inserted := 0
        skipped_min_periods :=
          pd.attendance.length - (filteredAttendanceOf pd).length
        skipped_duplicate := 0 })
  else
    ({ (studentPhase (coursePhase db pd).db pd).db with attendance := (
        insertAttendanceRows
          (studentPhase (coursePhase db pd).db pd).db.attendance
          (attFolded (coursePhase db pd).rows
            (studentPhase (coursePhase db pd).db pd).rows
            (attendanceSetOf
              (studentPhase (coursePhase db pd).db pd).db.attendance
              (pairsOf (coursePhase db pd).rows
                (studentPhase (coursePhase db pd).db pd).rows
                (filteredAttendanceOf pd)))
            (filteredAttendanceOf pd)).1) },
      { courses_new := (coursePhase db pd).newCount
        courses_existing := max (((coursePhase db pd).mapSize : ℤ) -
          ((coursePhase db pd).newCount : ℤ)) 0
        students_new := (studentPhase (coursePhase db pd).db pd).newCount
        students_existing :=
          ((studentPhase (coursePhase db pd).db pd).mapSize : ℤ) -
          ((studentPhase (coursePhase db pd).db pd).newCount : ℤ)
        total_in_file := pd.attendance.length
        inserted := (attFolded (coursePhase db pd).rows
          (studentPhase (coursePhase db pd).db pd).rows
          (attendanceSetOf
            (studentPhase (coursePhase db pd).db pd).db.attendance
            (pairsOf (coursePhase db pd).rows
              (studentPhase (coursePhase db pd).db pd).rows
              (filteredAttendanceOf pd)))
          (filteredAttendanceOf pd)).1.length
        skipped_min_periods :=
          pd.attendance.length - (filteredAttendanceOf pd).length
        skipped_duplicate := (attFolded (coursePhase db pd).rows
          (studentPhase (coursePhase db pd).db pd).rows
          (attendanceSetOf
            (studentPhase (coursePhase db pd).db pd).db.attendance
            (pairsOf (coursePhase db pd).rows
              (studentPhase (coursePhase db pd).db pd).rows
              (filteredAttendanceOf pd)))
          (filteredAttendanceOf pd)).2 })

/-- Empty database, used by concrete witnesses. -/
def demoDB : DB := ⟨[], [], [], 1, 1⟩

/-- A one-student, one-course processed file used by concrete
witnesses. -/
def demoPD : ProcessedData :=
  { students := [⟨"A1", "R1", "John Doe"⟩]
    attendance := [⟨"R1", "21CS101", "Alpha", 30, 40, 75⟩]
    courses := [(2, ⟨"21CS101", "Alpha"⟩)] }

/-! ## PostgreSQL query layer (`backend/src/db/index.ts`)

Tables carry the `user_id` column of the schema created by
`runMigrations` (lines 242–269). -/

/-- A row of the `students` table. -/
structure PgStudent where
  id : ℕ
  user_id : String
  admission_no : String
  registration_no : String
  name : String
deriving DecidableEq

/-- A row of the `courses` table. -/
structure PgCourse where
  id : ℕ
  user_id : String
  course_code : String
  course_name : String
deriving DecidableEq

/-- A row of the `attendance_records` table. -/
structure PgAttendanceRecord where
  id : ℕ
  user_id : String
  student_id : ℕ
  course_id : ℕ
  attended_periods : ℚ
  conducted_periods : ℚ
  attendance_percentage : ℚ
deriving DecidableEq

/-- `studentQueries.findMany` (lines 50–61): always `WHERE user_id = $1`,
plus `registration_no = ANY($2)` when given. -/
def studentFindMany (table : List PgStudent) (user_id : String)
    (regIn : Option (List String)) : List PgStudent :=
  match regIn with
  | some regs =>
    table.filter (fun s => s.user_id = user_id &&
      regs.contains s.registration_no)
  | none => table.filter (fun s => s.user_id = user_id)

/-- `courseQueries.findMany` (lines 92–103). -/
def courseFindMany (table : List PgCourse) (user_id : String)
    (codeIn : Option (List String)) : List PgCourse :=
  match codeIn with
  | some codes =>
    table.filter (fun c => c.user_id = user_id &&
      codes.contains c.course_code)
  | none => table.filter (fun c => c.user_id = user_id)

/-- `attendanceRecordQueries.findMany` (lines 134–154): each `WHERE`
conjunct is added only when the corresponding filter is provided. -/
def attendanceFindMany (table : List PgAttendanceRecord)
    (user_id : Option String) (student_id course_id : Option ℕ) :
    List PgAttendanceRecord :=
  table.filter (fun r =>
    (match user_id with | some u => r.user_id = u | none => true) &&
    (match student_id with | some sid => r.student_id = sid | none => true) &&
    (match course_id with | some cid => r.course_id = cid | none => true))

/-- `studentQueries.deleteMany` (lines 82–85): the rows remaining after
`DELETE FROM students WHERE user_id = $1`. -/
def studentDeleteMany (table : List PgStudent) (user_id : String) :
    List PgStudent :=
  table.filter (fun s => !(s.user_id = user_id))

/-- `courseQueries.deleteMany` (lines 124–127). -/
def courseDeleteMany (table : List PgCourse) (user_id : String) :
    List PgCourse :=
  table.filter (fun c => !(c.user_id = user_id))

/-- `attendanceRecordQueries.deleteMany` (lines 175–178). -/
def attendanceDeleteMany (table : List PgAttendanceRecord)
    (user_id : String) : List PgAttendanceRecord :=
  table.filter (fun r => !(r.user_id = user_id))

/-- The course existence lookup of `saveToDatabase`
(`excelProcessor.ts` line 283) as issued against the `courses` table of
the db/index.ts schema: it filters only by `course_code` — there is no
user filter in the ingestion path. -/
def ingestionCourseLookup (table : List PgCourse) (codes : List String) :
    List PgCourse :=
  table.filter (fun c => codes.contains c.course_code)

/-- The student existence lookup of `saveToDatabase`
(`excelProcessor.ts` line 309), likewise unscoped. -/
def ingestionStudentLookup (table : List PgStudent) (regs : List String) :
    List PgStudent :=
  table.filter (fun s => regs.contains s.registration_no)

/-! ## The pg `AttendanceService` (caching, stats, deletion)

State: the three pg tables, the process-wide in-memory cache (an
association list keyed by the cache-key string), and a counter of SQL
queries issued (every modelled `query(...)` call increments it — "the
database was touched" is `queries` growing). -/

/-- The three pg tables. -/
structure PgDB where
  students : List PgStudent
  courses : List PgCourse
  attendance : List PgAttendanceRecord
deriving DecidableEq

/-- The dashboard statistics row. -/
structure DashboardStats where
  total_students : ℕ
  total_courses : ℕ
  low_attendance_count : ℕ
  critical_attendance_count : ℕ
deriving DecidableEq

/-- One row of the `getAllCourses` result. -/
structure PgCourseRow where
  id : ℕ
  course_code : String
  course_name : String
deriving DecidableEq

/-- The values the cache can hold (`CacheEntry.data : any`). -/
inductive CacheVal where
  | stats (s : DashboardStats)
  | courses (cs : List PgCourseRow)
deriving DecidableEq

/-- `CacheEntry` of attendanceService (timestamp in ms). -/
structure CacheEntry where
  data : CacheVal
  timestamp : ℕ
deriving DecidableEq

/-- The service state threaded through the modelled operations. -/
structure SvcState where
  db : PgDB
  cache : List (String × CacheEntry)
  queries : ℕ
deriving DecidableEq

/-- `AttendanceService.invalidateCache` (lines 34–36): `cache.clear()` —
the entire process-wide map, all users, all operations. -/
def invalidateCache (_cache : List (String × CacheEntry)) :
    List (String × CacheEntry) :=
  []

/-- `cache.get(key)`. -/
def cacheLookup (cache : List (String × CacheEntry)) (key : String) :
    Option CacheEntry :=
  (cache.find? (fun e => e.1 = key)).map (fun e => e.2)

/-- `cache.set(key, entry)`: overwrite in place or append. -/
def cacheSet (cache : List (String × CacheEntry)) (key : String)
    (e : CacheEntry) : List (String × CacheEntry) :=
  if cache.any (fun p => p.1 = key) then
    cache.map (fun p => if p.1 = key then (key, e) else p)
  else
    cache ++ [(key, e)]

/-- `AttendanceService.cached` (lines 41–50): return a fresh entry
without running `fn`; otherwise run `fn` and store its result with the
current timestamp. -/
def cachedRun (st : SvcState) (key : String) (ttl : ℕ) (now : ℕ)
    (fn : SvcState → CacheVal × SvcState) : CacheVal × SvcState :=
  match cacheLookup st.cache key with
  | some e =>
    if now - e.timestamp < ttl then
      (e.data, st)
    else
      ((fn st).1, { (fn st).2 with
        cache := cacheSet (fn st).2.cache key ⟨(fn st).1, now⟩ })
  | none =>
    ((fn st).1, { (fn st).2 with
      cache := cacheSet (fn st).2.cache key ⟨(fn st).1, now⟩ })

/-- The user's attendance rows (`WHERE user_id = $1`). -/
def userAttendance (db : PgDB) (uid : String) : List PgAttendanceRecord :=
  db.attendance.filter (fun r => r.user_id = uid)

/-- The aggregate of `calculateDashboardStats` (lines 57–68): distinct
students and courses, and the `< 75` / `< 65` counts. -/
def dashboardStatsCompute (db : PgDB) (uid : String) : DashboardStats :=
  { total_students :=
      (dedupAcc [] ((userAttendance db uid).map (fun r => r.student_id))).length
    total_courses :=
      (dedupAcc [] ((userAttendance db uid).map (fun r => r.course_id))).length
    low_attendance_count :=
      ((userAttendance db uid).filter
        (fun r => r.attendance_percentage < 75)).length
    critical_attendance_count :=
      ((userAttendance db uid).filter
        (fun r => r.attendance_percentage < 65)).length }

/-- `AttendanceService.calculateDashboardStats` (lines 55–78): cached
under `dashboard_stats_<uid>` with a 60 s TTL; the computation issues
one query. -/
def calculateDashboardStats (st : SvcState) (uid : String) (now : ℕ) :
    CacheVal × SvcState :=
  cachedRun st ("dashboard_stats_" ++ uid) 60000 now
    (fun s => (CacheVal.stats (dashboardStatsCompute s.db uid),
      { s with queries := s.queries + 1 }))

/-- Insertion into a code-sorted list (`ORDER BY course_code ASC`). -/
def insertByCode (c : PgCourseRow) : List PgCourseRow → List PgCourseRow
  | [] => [c]
  | d :: rest =>
    if c.course_code < d.course_code then
      c :: d :: rest
    else
      d :: insertByCode c rest

/-- The query of `getAllCourses` (lines 330–334). -/
def getAllCoursesCompute (db : PgDB) (uid : String) : List PgCourseRow :=
  ((db.courses.filter (fun c => c.user_id = uid)).map
    (fun c => ⟨c.id, c.course_code, c.course_name⟩)).foldr insertByCode []

/-- `AttendanceService.getAllCourses` (lines 328–336): cached under
`all_courses_<uid>` with a 300 s TTL. -/
def getAllCourses (st : SvcState) (uid : String) (now : ℕ) :
    CacheVal × SvcState :=
  cachedRun st ("all_courses_" ++ uid) 300000 now
    (fun s => (CacheVal.courses (getAllCoursesCompute s.db uid),
      { s with queries := s.queries + 1 }))

/-- The result shape of `calculateFilteredStats`. -/
structure FilteredStats where
  total_students : ℕ
  total_courses : ℕ
  low_attendance_count : ℕ
  critical_attendance_count : ℕ
  is_single_student : Bool
  student_details : Option (String × String)
  total_courses_in_system : ℕ
  course_details : Option (String × String)
  student_course_info : Option String
deriving DecidableEq

/-- The joined, filtered rows of the stats query of
`calculateFilteredStats` (lines 116–129): inner joins on student and
course ids, scoped by user, then the optional course, exclusion, and
`ILIKE` search filters.  The route passes `course = ""` / `search = ""`
when absent, which the service treats as falsy — modelled as `none`. -/
def filteredJoinRows (db : PgDB) (uid : String) (courseCode : Option String)
    (search : Option String) (excl : List String) :
    List (PgAttendanceRecord × PgStudent × PgCourse) :=
  db.attendance.filterMap (fun a =>
    match db.students.find? (fun s => s.id = a.student_id),
        db.courses.find? (fun c => c.id = a.course_id) with
    | some s, some c =>
      if a.user_id = uid &&
          (match courseCode with
            | some cc => c.course_code = cc
            | none => true) &&
          (match excl with
            | [] => true
            | _ => !(excl.contains c.course_code)) &&
          (match search with
            | some q => strHas (upStr s.name) (upStr q) ||
                strHas (upStr s.registration_no) (upStr q)
            | none => true) then
        some (a, s, c)
      else
        none
    | _, _ => none)

/-- `AttendanceService.calculateFilteredStats` (lines 83–193).  It is
NOT wrapped in `cached`: it always issues its queries (two
unconditionally, one more when a course filter is given, one more for
the single-student lookup) and never reads or writes the cache. -/
def calculateFilteredStats (st : SvcState) (uid : String)
    (courseCode : Option String) (search : Option String)
    (excl : List String) : FilteredStats × SvcState :=
  (⟨(dedupAcc [] ((filteredJoinRows st.db uid courseCode search excl).map
      (fun r => r.1.student_id))).length,
    (dedupAcc [] ((filteredJoinRows st.db uid courseCode search excl).map
      (fun r => r.1.course_id))).length,
    ((filteredJoinRows st.db uid courseCode search excl).filter
      (fun r => r.1.attendance_percentage < 75)).length,
    ((filteredJoinRows st.db uid courseCode search excl).filter
      (fun r => r.1.attendance_percentage < 65)).length,
    search.isSome && (dedupAcc [] ((filteredJoinRows st.db uid courseCode
      search excl).map (fun r => r.1.student_id))).length = 1,
    (if search.isSome && (dedupAcc [] ((filteredJoinRows st.db uid
        courseCode search excl).map (fun r => r.1.student_id))).length = 1
      then
        ((filteredJoinRows st.db uid courseCode search excl).head?).map
          (fun r => (r.2.1.name, r.2.1.registration_no))
      else
        none),
    (st.db.courses.filter (fun c => c.user_id = uid)).length,
    (match courseCode with
      | some cc =>
        ((st.db.courses.find? (fun c => c.user_id = uid &&
          c.course_code = cc)).map
          (fun c => (c.course_code, c.course_name)))
      | none => none),
    (if search.isSome && (dedupAcc [] ((filteredJoinRows st.db uid
        courseCode search excl).map (fun r => r.1.student_id))).length = 1
      then
        (match (filteredJoinRows st.db uid courseCode search excl).head? with
          | some _ =>
            (match courseCode with
              | some cc => some cc
              | none => some (toString (dedupAcc []
                  ((filteredJoinRows st.db uid courseCode search excl).map
                    (fun r => r.1.course_id))).length ++
                (if (dedupAcc [] ((filteredJoinRows st.db uid courseCode
                    search excl).map (fun r => r.1.course_id))).length = 1
                  then " course" else " courses")))
          | none => none)
      else
        none)⟩,
    { st with queries := st.queries + 2 +
        (match courseCode with | some _ => 1 | none => 0) +
        (if search.isSome && (dedupAcc [] ((filteredJoinRows st.db uid
            courseCode search excl).map (fun r => r.1.student_id))).length
            = 1 then 1 else 0) })

/-- `AttendanceService.deleteAttendanceRecord` (lines 341–353):
`DELETE ... WHERE id = $1 AND user_id = $2`, then a global cache
invalidation, returning `rowCount > 0`; any thrown error is caught and
turned into `false` with nothing changed. -/
def deleteAttendanceRecord (fail : Bool) (st : SvcState) (userId : String)
    (recordId : ℕ) : Bool × SvcState :=
  if fail then
    (false, st)
  else
    (decide (0 < (st.db.attendance.filter
        (fun r => r.id = recordId && r.user_id = userId)).length),
      { st with
        db := { st.db with attendance := (st.db.attendance.filter
          (fun r => !(r.id = recordId && r.user_id = userId))) }
        cache := invalidateCache st.cache
        queries := st.queries + 1 })

/-- `AttendanceService.clearAllData` (lines 358–369): delete the user's
attendance records, students, and courses in that order, then a global
cache invalidation; errors are caught and become `false`. -/
def clearAllData (fail : Bool) (st : SvcState) (userId : String) :
    Bool × SvcState :=
  if fail then
    (false, st)
  else
    (true,
      { st with
        db := { students := studentDeleteMany st.db.students userId
                courses := courseDeleteMany st.db.courses userId
                attendance := attendanceDeleteMany st.db.attendance userId }
        cache := invalidateCache st.cache
        queries := st.queries + 3 })

/-! ## The upload route (`backend/src/routes/upload.ts`, POST /)

Each file's processing outcome (`processExcelFileFromMemory` returning
null, `saveToDatabase` failing after retries, or success) is an input of
the model; the route's control flow over those outcomes is what is
modelled.  `attempted` records the files the loop reached — it is model
instrumentation, not part of the HTTP response. -/

/-- What happened when one file was processed. -/
inductive FileOutcome where
  | parseFail
  | saveFail
  | processed
deriving DecidableEq

/-- One uploaded file. -/
structure UploadFile where
  originalname : String
  outcome : FileOutcome
deriving DecidableEq

/-- The route's observable result. -/
structure UploadResponse where
  status : ℕ
  success : Bool
  errorMsg : Option String
  message : Option String
  files_logged : List String
  errors : List String
  attempted : List String
  cacheCleared : Bool
deriving DecidableEq

/-- JS `String.prototype.split(".")` on the character list. -/
def splitOnDot : List Char → List (List Char)
  | [] => [[]]
  | c :: rest =>
    match splitOnDot rest with
    | [] => [[]]
    | part :: parts =>
      if c = '.' then
        [] :: part :: parts
      else
        (c :: part) :: parts

/-- Line 34: `(file.originalname.split(".").pop() || "").toLowerCase()`. -/
def fileExt (name : String) : String :=
  lowStr (String.mk ((splitOnDot name.toList).getLastD []))

/-- Line 27: the allowed extensions. -/
def allowedExts : List String := ["xlsx", "xls", "csv"]

/-- `errors.slice(0, 3).join("; ")`. -/
def joinSemicolon : List String → String
  | [] => ""
  | [x] => x
  | x :: rest => x ++ "; " ++ joinSemicolon rest

/-- Lines 33–92: the per-file loop and the final response.  A file with
a disallowed extension only records an error and continues; a file whose
processing or save fails makes the route return a 500 response at once
(lines 62–72), leaving the remaining files unattempted; the batch
response is a success — and the cache is invalidated — exactly when the
loop completes with at least one processed file. -/
def uploadLoop : List UploadFile → ℕ → List String → List String →
    List String → UploadResponse
  | [], processed, errors, logs, attempted =>
    if 0 < processed then
      { status := 200, success := true, errorMsg := none
        message := some ("Successfully processed " ++ toString processed ++
          " file(s)." ++ (if errors.length = 0 then "" else
            " " ++ toString errors.length ++ " file(s) had errors."))
        files_logged := logs, errors := errors, attempted := attempted
        cacheCleared := true }
    else
      { status := 500, success := false
        errorMsg := some ("No files were processed successfully." ++
          (if errors.length = 0 then "" else
            " Errors: " ++ joinSemicolon (errors.take 3)))
        message := none, files_logged := logs, errors := errors
        attempted := attempted, cacheCleared := false }
  | f :: rest, processed, errors, logs, attempted =>
    if !(allowedExts.contains (fileExt f.originalname)) then
      uploadLoop rest processed
        (errors ++ ["Invalid file type: " ++ f.originalname]) logs
        (attempted ++ [f.originalname])
    else
      match f.outcome with
      | FileOutcome.processed =>
        uploadLoop rest (processed + 1) errors (logs ++ [f.originalname])
          (attempted ++ [f.originalname])
      | _ =>
        { status := 500, success := false
          errorMsg := some ("Failed to process: " ++ f.originalname)
          message := none, files_logged := logs
          errors := errors ++ ["Failed to process: " ++ f.originalname]
          attempted := attempted ++ [f.originalname], cacheCleared := false }

/-- The POST / handler (lines 18–93), after multer: empty or oversized
batches are rejected, otherwise the loop runs. -/
def uploadPost (files : List UploadFile) : UploadResponse :=
  if files.length = 0 then
    { status := 400, success := false, errorMsg := some "No files selected"
      message := none, files_logged := [], errors := [], attempted := []
      cacheCleared := false }
  else if 21 < files.length then
    { status := 400, success := false
      errorMsg := some "Maximum 20 files allowed at once"
      message := none, files_logged := [], errors := [], attempted := []
      cacheCleared := false }
  else
    uploadLoop files 0 [] [] []

/-- A one-user service state used by concrete witnesses: one student,
one course, one attendance record (50%), empty cache. -/
def demoSvc : SvcState :=
  ⟨⟨[⟨1, "u", "A1", "R1", "John"⟩], [⟨1, "u", "21CS101", "Alpha"⟩],
    [⟨1, "u", 1, 1, 30, 40, 50⟩]⟩, [], 0⟩

/-- `demoSvc` with a cached dashboard entry belonging to another user
`v`, used to witness that invalidation clears other users' entries. -/
def demoSvcCached : SvcState :=
  { demoSvc with cache :=
      [("dashboard_stats_v", ⟨CacheVal.stats ⟨1, 1, 1, 1⟩, 0⟩)] }

end AttendanceApp

namespace AttendanceApp

/-! ## Helper lemmas about characters and parsing -/

theorem toUpper_eq_self_of_small (c : Char) (h : c.toNat < 97) :
    c.toUpper = c := by
  have hn : ¬(c.toNat ≥ 97 ∧ c.toNat ≤ 122) := by omega
  simp [Char.toUpper, hn]

theorem char_facts_of_toUpper_letter (x : Char)
    (hx : x.toUpper = 'N' ∨ x.toUpper = 'A') :
    isWsChar x = false ∧ x ≠ '-' ∧ x ≠ '+' ∧ x ≠ '.' ∧
      isDigitCh x = false := by
  refine ⟨?_, ?_, ?_, ?_, ?_⟩
  · cases hw : isWsChar x with
    | false => rfl
    | true =>
      simp only [isWsChar, Bool.or_eq_true, decide_eq_true_eq] at hw
      rcases hw with ((h | h) | h) | h <;> subst h <;>
        rcases hx with h2 | h2 <;> exact absurd h2 (by decide)
  · intro h; subst h; rcases hx with h | h <;> exact absurd h (by decide)
  · intro h; subst h; rcases hx with h | h <;> exact absurd h (by decide)
  · intro h; subst h; rcases hx with h | h <;> exact absurd h (by decide)
  · cases hd : isDigitCh x with
    | false => rfl
    | true =>
      have hsmall : x.toNat < 97 := by
        simp only [isDigitCh, Bool.and_eq_true, decide_eq_true_eq] at hd
        omega
      rw [toUpper_eq_self_of_small x hsmall] at hx
      rcases hx with h | h <;> subst h <;> simp [isDigitCh] at hd

theorem parseNumStr_eq_none_of_dash (s : String) (h : trimStr s = "-") :
    parseNumStr s = none := by
  unfold parseNumStr
  rw [h]
  rfl

theorem parseNumStr_eq_none_of_nan (s : String) (h : upStr s = "NAN") :
    parseNumStr s = none := by
  have hl : s.toList.map Char.toUpper = ['N', 'A', 'N'] := by
    have h2 := congrArg String.toList h
    simpa [upStr] using h2
  rcases hs : s.toList with _ | ⟨a, tl⟩
  · rw [hs] at hl; simp at hl
  rcases htl : tl with _ | ⟨b, tl2⟩
  · rw [hs, htl] at hl; simp at hl
  rcases htl2 : tl2 with _ | ⟨c, tl3⟩
  · rw [hs, htl, htl2] at hl; simp at hl
  rcases htl3 : tl3 with _ | ⟨d, tl4⟩
  swap
  · rw [hs, htl, htl2, htl3] at hl; simp at hl
  rw [hs, htl, htl2, htl3] at hl
  simp only [List.map_cons, List.map_nil, List.cons.injEq, and_true] at hl
  obtain ⟨ha, hb, hc⟩ := hl
  obtain ⟨haw, had, hap, hadot, hadig⟩ :=
    char_facts_of_toUpper_letter a (Or.inl ha)
  obtain ⟨hbw, _, _, hbdot, _⟩ :=
    char_facts_of_toUpper_letter b (Or.inr hb)
  obtain ⟨hcw, _, _, hcdot, _⟩ :=
    char_facts_of_toUpper_letter c (Or.inl hc)
  have hlist : s.toList = [a, b, c] := by rw [hs, htl, htl2, htl3]
  have hdata : s.data = [a, b, c] := hlist
  have htrim : (trimStr s).toList = [a, b, c] := by
    simp [trimStr, hdata, List.dropWhile_cons, haw, hbw, hcw]
  unfold parseNumStr
  rw [htrim]
  have hbody : parseNumBody [a, b, c] = none := by
    unfold parseNumBody
    have htake : [a, b, c].takeWhile (fun x => !(x = '.')) = [a, b, c] := by
      simp [List.takeWhile_cons, hadot, hbdot, hcdot]
    have hdrop : [a, b, c].dropWhile (fun x => !(x = '.')) = [] := by
      simp [List.dropWhile_cons, hadot, hbdot, hcdot]
    rw [htake, hdrop]
    simp [parseDigits, hadig]
  split
  · rename_i heq
    simp at heq
  · rename_i rest heq
    simp only [List.cons.injEq] at heq
    exact absurd heq.1 had
  · rename_i rest heq
    simp only [List.cons.injEq] at heq
    exact absurd heq.1 hap
  · exact hbody

/-! ## Claim C5 — row rejection in the row extractor -/

/-- Claim C5 as stated is false: a registration number that contains
"SUMMARY" (here "SUMMARY9", with an ordinary student name) is NOT
rejected — the row still contributes a student tuple and an attendance
tuple, because line 208 of `excelProcessor.ts` checks the registration
number only for "CUMULATIVE" and "TOTAL", not for "SUMMARY". -/
theorem claim5_counterexample :
    strHas (upStr (trimStr "SUMMARY9")) "SUMMARY" = true ∧
      processDataRow "A1" "SUMMARY9" "John Doe"
        [⟨"21CS101", "Alpha", Cell.num 30, Cell.num 40, Cell.num 75⟩] =
        ([{ admission_no := "A1", registration_no := "SUMMARY9",
            name := "John Doe" }],
          [{ registration_no := "SUMMARY9", course_code := "21CS101",
             course_name := "Alpha", attended_periods := 30,
             conducted_periods := 40, attendance_percentage := 75 }]) := by
  constructor
  · decide
  · decide

/-- Claim C5 (amended): a data row contributes zero student tuples and
zero attendance tuples if its trimmed registration number is blank or
case-insensitively equals "undefined", "nan", or "-", or if the student
name contains "cumulative", "total", or "summary" case-insensitively, or
if the registration number contains "cumulative" or "total"
case-insensitively (a registration number containing "summary" alone is
not rejected). -/
theorem claim5_row_rejection (adm reg name : String)
    (cells : List CourseCells)
    (h : trimStr reg = "" ∨ upStr (trimStr reg) = "UNDEFINED" ∨
      upStr (trimStr reg) = "NAN" ∨ upStr (trimStr reg) = "-" ∨
      strHas (upStr (trimStr name)) "CUMULATIVE" = true ∨
      strHas (upStr (trimStr name)) "TOTAL" = true ∨
      strHas (upStr (trimStr name)) "SUMMARY" = true ∨
      strHas (upStr (trimStr reg)) "CUMULATIVE" = true ∨
      strHas (upStr (trimStr reg)) "TOTAL" = true) :
    processDataRow adm reg name cells = ([], []) := by
  have hrej : rowRejected reg name = true := by
    unfold rowRejected
    rcases h with h | h | h | h | h | h | h | h | h <;> simp [h]
  unfold processDataRow
  rw [hrej]
  simp

/-- Witness for `claim5_row_rejection` at the concrete row of the claim:
registration number "CUMULATIVE". -/
theorem claim5_row_rejection_witness :
    processDataRow "A1" "CUMULATIVE" "John Doe" [] = ([], []) :=
  claim5_row_rejection "A1" "CUMULATIVE" "John Doe" [] (by decide)

/-! ## Claim C7 — percentage derivation -/

/-- Claim C7: for every extracted attendance tuple, the stored percentage
is the percentage cell value verbatim when that cell is present and
parses as a finite number, and `attended / conducted * 100` (or `0` when
`conducted = 0`) otherwise; in particular a blank percentage cell with
attended 30 and conducted 40 stores exactly 75. -/
theorem claim7_percentage_derivation :
    (∀ (pct : Cell) (attended conducted : ℚ),
      extractPercentage pct attended conducted =
        match presentFiniteValue pct with
        | some q => q
        | none =>
          if conducted > 0 then attended / conducted * 100 else 0) ∧
    extractPercentage Cell.empty 30 40 = 75 := by
  constructor
  · intro pct attended conducted
    cases pct with
    | empty => rfl
    | num q => rfl
    | str s =>
      by_cases hinv : invalidCell (Cell.str s) = true
      · have hval : presentFiniteValue (Cell.str s) = none := by
          simp only [invalidCell, Bool.or_eq_true, decide_eq_true_eq] at hinv
          rcases hinv with (hblank | hdash) | hnan
          · simp [presentFiniteValue, hblank]
          · have hne : ¬(trimStr s = "") := by
              rw [hdash]; intro hcon; exact absurd hcon (by decide)
            simp [presentFiniteValue, hne,
              parseNumStr_eq_none_of_dash s hdash]
          · by_cases hblank : trimStr s = ""
            · simp [presentFiniteValue, hblank]
            · simp [presentFiniteValue, hblank,
                parseNumStr_eq_none_of_nan s hnan]
        rw [hval]
        unfold extractPercentage
        rw [if_pos hinv]
      · have hblankne : ¬(trimStr s = "") := by
          intro hcon
          exact hinv (by simp [invalidCell, hcon])
        have hval : presentFiniteValue (Cell.str s) = parseNumStr s := by
          simp [presentFiniteValue, hblankne]
        rw [hval]
        unfold extractPercentage
        rw [if_neg hinv]
        rfl
  · norm_num [extractPercentage, invalidCell]

/-! ## Claim C6 — spreadsheet layout detector -/

theorem headerRowStep_none (courses : List (ℕ × CourseInfo))
    (acc : List (ℕ × CourseInfo) × ℕ) (cell : ℕ × Cell)
    (h : parseCourseCell cell.2 = none) :
    headerRowStep courses acc cell = acc := by
  unfold headerRowStep
  rw [h]

theorem headerRowStep_skip (courses : List (ℕ × CourseInfo))
    (acc : List (ℕ × CourseInfo) × ℕ) (cell : ℕ × Cell)
    (info : CourseInfo) (h : parseCourseCell cell.2 = some info)
    (hc : (courses.any (fun p => p.2.code = info.code) ||
      acc.1.any (fun p => p.2.code = info.code)) = true) :
    headerRowStep courses acc cell = acc := by
  unfold headerRowStep
  rw [h]
  simp only [hc, if_true]

theorem headerRowStep_add (courses : List (ℕ × CourseInfo))
    (acc : List (ℕ × CourseInfo) × ℕ) (cell : ℕ × Cell)
    (info : CourseInfo) (h : parseCourseCell cell.2 = some info)
    (hc : (courses.any (fun p => p.2.code = info.code) ||
      acc.1.any (fun p => p.2.code = info.code)) = false) :
    headerRowStep courses acc cell = (acc.1 ++ [(cell.1, info)], acc.2 + 1) := by
  unfold headerRowStep
  rw [h]
  simp only [hc, Bool.false_eq_true, if_false]

theorem headerRowScan_invariant (row : List (ℕ × Cell))
    (courses : List (ℕ × CourseInfo)) :
    ∀ acc : List (ℕ × CourseInfo) × ℕ,
      (∀ p ∈ acc.1, ∀ q ∈ courses, p.2.code ≠ q.2.code) →
      (acc.1.map (fun p => p.2.code)).Nodup →
      (∀ p ∈ (row.foldl (headerRowStep courses) acc).1,
        ∀ q ∈ courses, p.2.code ≠ q.2.code) ∧
      (((row.foldl (headerRowStep courses) acc).1.map
        (fun p => p.2.code)).Nodup) := by
  induction row with
  | nil => intro acc h1 h2; exact ⟨h1, h2⟩
  | cons cell rest ih =>
    intro acc h1 h2
    simp only [List.foldl_cons]
    cases hp : parseCourseCell cell.2 with
    | none =>
      rw [headerRowStep_none courses acc cell hp]
      exact ih acc h1 h2
    | some info =>
      cases hcond : (courses.any (fun p => p.2.code = info.code) ||
          acc.1.any (fun p => p.2.code = info.code)) with
      | true =>
        rw [headerRowStep_skip courses acc cell info hp hcond]
        exact ih acc h1 h2
      | false =>
        rw [headerRowStep_add courses acc cell info hp hcond]
        simp only [Bool.or_eq_false_iff, List.any_eq_false,
          decide_eq_true_eq] at hcond
        obtain ⟨hc1, hc2⟩ := hcond
        refine ih _ ?_ ?_
        · intro p hm q hq
          rcases List.mem_append.mp hm with hin | hin
          · exact h1 p hin q hq
          · simp only [List.mem_singleton] at hin
            subst hin
            intro heq
            exact hc1 q hq heq.symm
        · simp only [List.map_append, List.map_cons, List.map_nil]
          rw [List.nodup_append]
          refine ⟨h2, List.nodup_singleton _, ?_⟩
          intro x hx
          simp only [List.mem_singleton]
          intro hxe
          subst hxe
          obtain ⟨p, hp1, hp2⟩ := List.mem_map.mp hx
          exact hc2 p hp1 hp2

theorem headerRowScan_scoped (row : List (ℕ × Cell))
    (courses : List (ℕ × CourseInfo)) :
    (∀ p ∈ (headerRowScan courses row).1, ∀ q ∈ courses,
      p.2.code ≠ q.2.code) ∧
    (((headerRowScan courses row).1.map (fun p => p.2.code)).Nodup) := by
  unfold headerRowScan
  exact headerRowScan_invariant row courses ([], 0)
    (by intro p hp; simp at hp) (by simp)

theorem objectAssignStep_inv (base : List (ℕ × CourseInfo))
    (p : ℕ × CourseInfo)
    (hk : (base.map Prod.fst).Nodup)
    (hc : (base.map (fun q => q.2.code)).Nodup)
    (hd : ∀ q ∈ base, p.2.code ≠ q.2.code) :
    ((objectAssignStep base p).map Prod.fst).Nodup ∧
    ((objectAssignStep base p).map (fun q => q.2.code)).Nodup ∧
    (∀ x ∈ objectAssignStep base p, x ∈ base ∨ x = p) := by
  unfold objectAssignStep
  cases hany : base.any (fun q => q.1 = p.1) with
  | false =>
    simp only [hany, Bool.false_eq_true, if_false]
    simp only [List.any_eq_false, decide_eq_true_eq] at hany
    refine ⟨?_, ?_, ?_⟩
    · simp only [List.map_append, List.map_cons, List.map_nil]
      rw [List.nodup_append]
      refine ⟨hk, List.nodup_singleton _, ?_⟩
      intro x hx
      simp only [List.mem_singleton]
      intro hxe
      subst hxe
      obtain ⟨q, hq1, hq2⟩ := List.mem_map.mp hx
      exact hany q hq1 hq2
    · simp only [List.map_append, List.map_cons, List.map_nil]
      rw [List.nodup_append]
      refine ⟨hc, List.nodup_singleton _, ?_⟩
      intro x hx
      simp only [List.mem_singleton]
      intro hxe
      subst hxe
      obtain ⟨q, hq1, hq2⟩ := List.mem_map.mp hx
      exact hd q hq1 hq2.symm
    · intro x hx
      rcases List.mem_append.mp hx with hin | hin
      · exact Or.inl hin
      · simp only [List.mem_singleton] at hin
        exact Or.inr hin
  | true =>
    simp only [hany, if_true]
    refine ⟨?_, ?_, ?_⟩
    · have heq : (base.map (fun q => if q.1 = p.1 then p else q)).map Prod.fst
          = base.map Prod.fst := by
        rw [List.map_map]
        apply List.map_congr_left
        intro q _
        by_cases h : q.1 = p.1
        · simp [h]
        · simp [h]
      rw [heq]
      exact hk
    · clear hany
      induction base with
      | nil => simp
      | cons q0 rest ih =>
        by_cases hq : q0.1 = p.1
        · have hrest : rest.map (fun q => if q.1 = p.1 then p else q) = rest := by
            have hid : rest.map (fun q => if q.1 = p.1 then p else q)
                = rest.map id := by
              apply List.map_congr_left
              intro q hqm
              have hne : q.1 ≠ p.1 := by
                intro hcon
                simp only [List.map_cons, List.nodup_cons] at hk
                exact hk.1 (List.mem_map.mpr ⟨q, hqm, (hcon.trans hq.symm)⟩)
              simp [hne]
            simpa using hid
          simp only [List.map_cons, hq, if_true, hrest]
          simp only [List.map_cons, List.nodup_cons]
          refine ⟨?_, (List.nodup_cons.mp hc).2⟩
          intro hmem
          obtain ⟨q, hq1, hq2⟩ := List.mem_map.mp hmem
          exact hd q (List.mem_cons_of_mem q0 hq1) hq2.symm
        · simp only [List.map_cons, hq, if_false, List.nodup_cons]
          simp only [List.map_cons, List.nodup_cons] at hk hc
          refine ⟨?_, ih hk.2 hc.2
            (fun q hq2 => hd q (List.mem_cons_of_mem q0 hq2))⟩
          intro hmem
          obtain ⟨q, hq1, hq2⟩ := List.mem_map.mp hmem
          obtain ⟨q2, hq21, hq22⟩ := List.mem_map.mp hq1
          by_cases hk2 : q2.1 = p.1
          · rw [if_pos hk2] at hq22
            subst hq22
            exact hd q0 (List.mem_cons_self q0 rest) hq2
          · rw [if_neg hk2] at hq22
            subst hq22
            exact hc.1 (hq2 ▸ List.mem_map.mpr ⟨q2, hq21, rfl⟩)
    · intro x hx
      obtain ⟨q, hq1, hq2⟩ := List.mem_map.mp hx
      by_cases h : q.1 = p.1
      · rw [if_pos h] at hq2
        exact Or.inr hq2.symm
      · rw [if_neg h] at hq2
        exact Or.inl (hq2 ▸ hq1)

theorem objectAssign_inv (updates : List (ℕ × CourseInfo)) :
    ∀ base : List (ℕ × CourseInfo),
      (base.map Prod.fst).Nodup →
      (base.map (fun q => q.2.code)).Nodup →
      (updates.map (fun q => q.2.code)).Nodup →
      (∀ p ∈ updates, ∀ q ∈ base, p.2.code ≠ q.2.code) →
      ((objectAssign base updates).map Prod.fst).Nodup ∧
      ((objectAssign base updates).map (fun q => q.2.code)).Nodup := by
  induction updates with
  | nil => intro base hk hc _ _; exact ⟨hk, hc⟩
  | cons u rest ih =>
    intro base hk hc hu hd
    have hdu : ∀ q ∈ base, u.2.code ≠ q.2.code :=
      hd u (List.mem_cons_self u rest)
    obtain ⟨hk2, hc2, hmem⟩ := objectAssignStep_inv base u hk hc hdu
    simp only [List.map_cons, List.nodup_cons] at hu
    have hres := ih (objectAssignStep base u) hk2 hc2 hu.2 ?_
    · unfold objectAssign at hres ⊢
      simpa using hres
    · intro p hp q hq
      rcases hmem q hq with hin | hin
      · exact hd p (List.mem_cons_of_mem u hp) q hin
      · subst hin
        intro hcon
        exact hu.1 (List.mem_map.mpr ⟨p, hp, hcon⟩)

theorem headerRowScan_count (row : List (ℕ × Cell))
    (courses : List (ℕ × CourseInfo)) :
    ∀ acc : List (ℕ × CourseInfo) × ℕ,
      (row.foldl (headerRowStep courses) acc).1.length + acc.2 =
        (row.foldl (headerRowStep courses) acc).2 + acc.1.length := by
  induction row with
  | nil => intro acc; simp only [List.foldl_nil]; omega
  | cons cell rest ih =>
    intro acc
    simp only [List.foldl_cons]
    cases hp : parseCourseCell cell.2 with
    | none =>
      rw [headerRowStep_none courses acc cell hp]
      exact ih acc
    | some info =>
      cases hcond : (courses.any (fun p => p.2.code = info.code) ||
          acc.1.any (fun p => p.2.code = info.code)) with
      | true =>
        rw [headerRowStep_skip courses acc cell info hp hcond]
        exact ih acc
      | false =>
        rw [headerRowStep_add courses acc cell info hp hcond]
        have := ih (acc.1 ++ [(cell.1, info)], acc.2 + 1)
        simp only [List.length_append, List.length_cons,
          List.length_nil] at this ⊢
        omega

theorem headerRowScan_allNone (row : List (ℕ × Cell))
    (courses : List (ℕ × CourseInfo))
    (hnone : ∀ c ∈ row, parseCourseCell c.2 = none) :
    ∀ acc : List (ℕ × CourseInfo) × ℕ,
      row.foldl (headerRowStep courses) acc = acc := by
  induction row with
  | nil => intro acc; rfl
  | cons cell rest ih =>
    intro acc
    simp only [List.foldl_cons]
    rw [headerRowStep_none courses acc cell
      (hnone cell (List.mem_cons_self cell rest))]
    exact ih (fun c hc => hnone c (List.mem_cons_of_mem cell hc)) acc

theorem headerRowScan_keys_sublist (row : List (ℕ × Cell))
    (courses : List (ℕ × CourseInfo)) :
    ∀ acc : List (ℕ × CourseInfo) × ℕ,
      ((row.foldl (headerRowStep courses) acc).1.map Prod.fst).Sublist
        (acc.1.map Prod.fst ++ row.map Prod.fst) := by
  induction row with
  | nil =>
    intro acc
    simp only [List.foldl_nil, List.map_nil, List.append_nil]
    exact List.Sublist.refl _
  | cons cell rest ih =>
    intro acc
    simp only [List.foldl_cons, List.map_cons]
    have hembed : (acc.1.map Prod.fst ++ rest.map Prod.fst).Sublist
        (acc.1.map Prod.fst ++ (cell.1 :: rest.map Prod.fst)) :=
      List.Sublist.append_left (List.sublist_cons_self _ _) _
    cases hp : parseCourseCell cell.2 with
    | none =>
      rw [headerRowStep_none courses acc cell hp]
      exact (ih acc).trans hembed
    | some info =>
      cases hcond : (courses.any (fun p => p.2.code = info.code) ||
          acc.1.any (fun p => p.2.code = info.code)) with
      | true =>
        rw [headerRowStep_skip courses acc cell info hp hcond]
        exact (ih acc).trans hembed
      | false =>
        rw [headerRowStep_add courses acc cell info hp hcond]
        have := ih (acc.1 ++ [(cell.1, info)], acc.2 + 1)
        simp only [List.map_append, List.map_cons, List.map_nil] at this
        have heq : (acc.1.map Prod.fst ++ [cell.1]) ++ rest.map Prod.fst
            = acc.1.map Prod.fst ++ (cell.1 :: rest.map Prod.fst) := by
          simp
        rw [heq] at this
        exact this

theorem objectAssign_disjoint_append (updates : List (ℕ × CourseInfo)) :
    ∀ base : List (ℕ × CourseInfo),
      (updates.map Prod.fst).Nodup →
      (∀ p ∈ updates, ∀ q ∈ base, p.1 ≠ q.1) →
      objectAssign base updates = base ++ updates := by
  induction updates with
  | nil => intro base _ _; simp [objectAssign]
  | cons u rest ih =>
    intro base hn hd
    have hany : base.any (fun q => q.1 = u.1) = false := by
      simp only [List.any_eq_false, decide_eq_true_eq]
      intro q hq
      exact fun hcon =>
        hd u (List.mem_cons_self u rest) q hq hcon.symm
    unfold objectAssign
    simp only [List.foldl_cons]
    have hstep : objectAssignStep base u = base ++ [u] := by
      unfold objectAssignStep
      simp [hany]
    rw [hstep]
    simp only [List.map_cons, List.nodup_cons] at hn
    have := ih (base ++ [u]) hn.2 ?_
    · unfold objectAssign at this
      rw [this]
      simp
    · intro p hp q hq
      rcases List.mem_append.mp hq with hin | hin
      · exact hd p (List.mem_cons_of_mem u hp) q hin
      · simp only [List.mem_singleton] at hin
        subst hin
        intro hcon
        exact hn.1 (List.mem_map.mpr ⟨p, hp, hcon⟩)

theorem headerFoldStep_inv (sheet : Sheet) (courses : List (ℕ × CourseInfo))
    (rowNum : ℕ)
    (hk : (courses.map Prod.fst).Nodup)
    (hc : (courses.map (fun q => q.2.code)).Nodup) :
    ((headerFoldStep sheet courses rowNum).map Prod.fst).Nodup ∧
    ((headerFoldStep sheet courses rowNum).map (fun q => q.2.code)).Nodup := by
  unfold headerFoldStep
  obtain ⟨hdisj, hnodup⟩ :=
    headerRowScan_scoped (getSheetRow sheet rowNum) courses
  split
  · exact objectAssign_inv _ courses hk hc hnodup hdisj
  · exact ⟨hk, hc⟩

theorem extract_fold_nodup (rows : List ℕ) (sheet : Sheet) :
    ∀ courses : List (ℕ × CourseInfo),
      (courses.map Prod.fst).Nodup →
      (courses.map (fun q => q.2.code)).Nodup →
      ((rows.foldl (headerFoldStep sheet) courses).map Prod.fst).Nodup ∧
      ((rows.foldl (headerFoldStep sheet) courses).map
        (fun q => q.2.code)).Nodup := by
  induction rows with
  | nil => intro courses hk hc; exact ⟨hk, hc⟩
  | cons r rest ih =>
    intro courses hk hc
    simp only [List.foldl_cons]
    obtain ⟨hk2, hc2⟩ := headerFoldStep_inv sheet courses r hk hc
    exact ih _ hk2 hc2

theorem headerFoldStep_allNone (sheet : Sheet) (rowNum : ℕ)
    (courses : List (ℕ × CourseInfo))
    (hnone : ∀ c ∈ getSheetRow sheet rowNum, parseCourseCell c.2 = none) :
    headerFoldStep sheet courses rowNum = courses := by
  unfold headerFoldStep
  have hscan : headerRowScan courses (getSheetRow sheet rowNum) = ([], 0) := by
    unfold headerRowScan
    exact headerRowScan_allNone _ courses hnone ([], 0)
  rw [hscan]
  simp

theorem extract_fold_allNone (rows : List ℕ) (sheet : Sheet)
    (hnone : ∀ r ∈ rows, ∀ c ∈ getSheetRow sheet r,
      parseCourseCell c.2 = none) :
    ∀ courses, rows.foldl (headerFoldStep sheet) courses = courses := by
  induction rows with
  | nil => intro courses; rfl
  | cons r rest ih =>
    intro courses
    simp only [List.foldl_cons]
    rw [headerFoldStep_allNone sheet r courses
      (hnone r (List.mem_cons_self r rest))]
    exact ih (fun r2 h2 => hnone r2 (List.mem_cons_of_mem r h2)) courses

/-! ## Claim C6 theorems -/

/-- Claim C6 as stated is false: on `demoSheet6` the detector returns
the UNION of the courses of rows 4 and 5 (three courses), not the
mapping of the single highest-scoring row (row 5, two courses), because
line 86 of `excelProcessor.ts` merges (`Object.assign`) a better row's
courses into the accumulated mapping instead of replacing it. -/
theorem claim6_counterexample :
    extractCourseInfoFromHeader demoSheet6 =
      [(2, ⟨"21CS101", "Alpha"⟩), (3, ⟨"21CS102", "Beta"⟩),
        (4, ⟨"21CS103", "Gamma"⟩)] ∧
    bestRowMapping demoSheet6 =
      [(3, ⟨"21CS102", "Beta"⟩), (4, ⟨"21CS103", "Gamma"⟩)] ∧
    extractCourseInfoFromHeader demoSheet6 ≠ bestRowMapping demoSheet6 := by
  refine ⟨by decide, by decide, by decide⟩

/-- Claim C6 (amended): the detector scores each candidate row (4–7) by
the number of course-pattern cells whose codes are not yet collected,
and MERGES a row's new courses into the accumulated mapping whenever
that score exceeds the accumulated size, so the output can be a union of
several candidate rows; duplicate course codes are still suppressed
first-occurrence-wins (the output codes are always duplicate-free), and
when exactly one candidate row contains pattern-matching cells the
output is exactly that row's (deduplicated) mapping. -/
theorem claim6_header_detector :
    (∀ sheet : Sheet,
      ((extractCourseInfoFromHeader sheet).map (fun p => p.2.code)).Nodup) ∧
    (∀ (sheet : Sheet) (r0 : ℕ), r0 ∈ headerRowNums sheet →
      (∀ r ∈ headerRowNums sheet, r ≠ r0 →
        ∀ c ∈ getSheetRow sheet r, parseCourseCell c.2 = none) →
      ((getSheetRow sheet r0).map Prod.fst).Nodup →
      extractCourseInfoFromHeader sheet =
        (headerRowScan [] (getSheetRow sheet r0)).1) := by
  constructor
  · intro sheet
    exact (extract_fold_nodup (headerRowNums sheet) sheet [] (by simp)
      (by simp)).2
  · intro sheet r0 hr0 hothers hkeys
    have hnodupRows : (headerRowNums sheet).Nodup :=
      (List.nodup_range _).filter _
    unfold extractCourseInfoFromHeader
    obtain ⟨l1, l2, hsplit⟩ := List.append_of_mem hr0
    rw [hsplit] at hnodupRows ⊢
    have hr0notl1 : r0 ∉ l1 := by
      intro hmem
      rw [List.nodup_append] at hnodupRows
      exact hnodupRows.2.2 hmem (List.mem_cons_self r0 l2)
    have hr0notl2 : r0 ∉ l2 := by
      rw [List.nodup_append, List.nodup_cons] at hnodupRows
      exact hnodupRows.2.1.1
    have hothers2 : ∀ r, r ∈ l1 ∨ r ∈ l2 → ∀ c ∈ getSheetRow sheet r,
        parseCourseCell c.2 = none := by
      intro r hmem
      refine hothers r ?_ ?_
      · rw [hsplit]
        rcases hmem with h | h
        · exact List.mem_append.mpr (Or.inl h)
        · exact List.mem_append.mpr (Or.inr (List.mem_cons_of_mem r0 h))
      · intro hcon
        subst hcon
        rcases hmem with h | h
        · exact hr0notl1 h
        · exact hr0notl2 h
    rw [List.foldl_append]
    rw [extract_fold_allNone l1 sheet
      (fun r h => hothers2 r (Or.inl h)) []]
    simp only [List.foldl_cons]
    have hscan_keys : ((headerRowScan [] (getSheetRow sheet r0)).1.map
        Prod.fst).Nodup := by
      have hsub := headerRowScan_keys_sublist (getSheetRow sheet r0) [] ([], 0)
      simp only [List.map_nil, List.nil_append] at hsub
      exact (hkeys.sublist hsub)
    have hstep : headerFoldStep sheet [] r0 =
        (headerRowScan [] (getSheetRow sheet r0)).1 := by
      unfold headerFoldStep
      by_cases hgt : (headerRowScan [] (getSheetRow sheet r0)).2 >
          ([] : List (ℕ × CourseInfo)).length
      · rw [if_pos hgt]
        have hdisj : ∀ p ∈ (headerRowScan [] (getSheetRow sheet r0)).1,
            ∀ q ∈ ([] : List (ℕ × CourseInfo)), p.1 ≠ q.1 := by
          intro p _ q hq
          exact absurd hq (List.not_mem_nil q)
        rw [objectAssign_disjoint_append _ [] hscan_keys hdisj]
        simp
      · rw [if_neg hgt]
        have hcount := headerRowScan_count (getSheetRow sheet r0) [] ([], 0)
        have hzero : (headerRowScan [] (getSheetRow sheet r0)).2 = 0 := by
          simp only [List.length_nil, Nat.not_lt, Nat.le_zero] at hgt
          exact hgt
        have hlen : (headerRowScan [] (getSheetRow sheet r0)).1.length = 0 := by
          unfold headerRowScan at hzero ⊢
          simp only [List.length_nil] at hcount
          omega
        exact (List.eq_nil_of_length_eq_zero hlen).symm
    rw [hstep]
    exact extract_fold_allNone l2 sheet
      (fun r h => hothers2 r (Or.inr h)) _

/-- Witness for the single-productive-row part of
`claim6_header_detector`, at a sheet whose only course header cells sit
in row 4. -/
theorem claim6_header_detector_witness :
    extractCourseInfoFromHeader
        [[], [], [], [(2, Cell.str "21CS101 - Alpha")], []] =
      (headerRowScan []
        (getSheetRow [[], [], [], [(2, Cell.str "21CS101 - Alpha")], []] 4)).1 :=
  claim6_header_detector.2
    [[], [], [], [(2, Cell.str "21CS101 - Alpha")], []] 4
    (by decide) (by decide) (by decide)

/-! ## Lemmas about the conflict-tolerant bulk insert -/

theorem conflictInsert_subset {ρ ι κ : Type} [DecidableEq κ] (keyR : ρ → κ)
    (keyI : ι → κ) (mkRow : ℕ → ι → ρ) (items : List ι) :
    ∀ acc : List ρ × ℕ, ∀ r ∈ acc.1,
      r ∈ (conflictInsert keyR keyI mkRow acc items).1 := by
  induction items with
  | nil =>
    intro acc r hr
    simpa [conflictInsert] using hr
  | cons it rest ih =>
    intro acc r hr
    simp only [conflictInsert]
    by_cases h : acc.1.any (fun r => keyR r = keyI it) = true
    · rw [if_pos h]
      exact ih acc r hr
    · rw [if_neg h]
      exact ih _ r (List.mem_append_left _ hr)

theorem conflictInsert_covers {ρ ι κ : Type} [DecidableEq κ] (keyR : ρ → κ)
    (keyI : ι → κ) (mkRow : ℕ → ι → ρ)
    (hmk : ∀ n it, keyR (mkRow n it) = keyI it) (items : List ι) :
    ∀ acc : List ρ × ℕ, ∀ it ∈ items,
      ∃ r ∈ (conflictInsert keyR keyI mkRow acc items).1,
        keyR r = keyI it := by
  induction items with
  | nil => intro acc it hit; exact absurd hit (List.not_mem_nil it)
  | cons it0 rest ih =>
    intro acc it hit
    simp only [conflictInsert]
    rcases List.mem_cons.mp hit with heq | hmem
    · subst heq
      by_cases h : acc.1.any (fun r => keyR r = keyI it) = true
      · rw [if_pos h]
        simp only [List.any_eq_true, decide_eq_true_eq] at h
        obtain ⟨r, hr, hkey⟩ := h
        exact ⟨r, conflictInsert_subset keyR keyI mkRow rest acc r hr, hkey⟩
      · rw [if_neg h]
        refine ⟨mkRow acc.2 it, ?_, hmk acc.2 it⟩
        exact conflictInsert_subset keyR keyI mkRow rest _ _
          (List.mem_append_right _ (List.mem_singleton_self _))
    · by_cases h : acc.1.any (fun r => keyR r = keyI it0) = true
      · rw [if_pos h]
        exact ih acc it hmem
      · rw [if_neg h]
        exact ih _ it hmem

theorem conflictInsert_noop {ρ ι κ : Type} [DecidableEq κ] (keyR : ρ → κ)
    (keyI : ι → κ) (mkRow : ℕ → ι → ρ) (items : List ι) :
    ∀ acc : List ρ × ℕ,
      (∀ it ∈ items, ∃ r ∈ acc.1, keyR r = keyI it) →
      conflictInsert keyR keyI mkRow acc items = acc := by
  induction items with
  | nil => intro acc _; rfl
  | cons it0 rest ih =>
    intro acc hcov
    simp only [conflictInsert]
    have hany : acc.1.any (fun r => keyR r = keyI it0) = true := by
      simp only [List.any_eq_true, decide_eq_true_eq]
      exact hcov it0 (List.mem_cons_self it0 rest)
    rw [if_pos hany]
    exact ih acc (fun it hit => hcov it (List.mem_cons_of_mem it0 hit))

theorem conflictInsert_prop {ρ ι κ : Type} [DecidableEq κ] {P : ρ → Prop}
    (keyR : ρ → κ) (keyI : ι → κ) (mkRow : ℕ → ι → ρ) (items : List ι)
    (hitems : ∀ n it, it ∈ items → P (mkRow n it)) :
    ∀ acc : List ρ × ℕ, (∀ r ∈ acc.1, P r) →
      ∀ r ∈ (conflictInsert keyR keyI mkRow acc items).1, P r := by
  induction items with
  | nil =>
    intro acc hacc r hr
    simp only [conflictInsert] at hr
    exact hacc r hr
  | cons it0 rest ih =>
    intro acc hacc r hr
    simp only [conflictInsert] at hr
    by_cases h : acc.1.any (fun r => keyR r = keyI it0) = true
    · rw [if_pos h] at hr
      exact ih (fun n it hit => hitems n it (List.mem_cons_of_mem it0 hit))
        acc hacc r hr
    · rw [if_neg h] at hr
      refine ih (fun n it hit => hitems n it (List.mem_cons_of_mem it0 hit))
        _ ?_ r hr
      intro x hx
      rcases List.mem_append.mp hx with hin | hin
      · exact hacc x hin
      · simp only [List.mem_singleton] at hin
        subst hin
        exact hitems acc.2 it0 (List.mem_cons_self it0 rest)

theorem dedupAcc_mem {α : Type} [DecidableEq α] (l : List α) :
    ∀ (seen : List α) (x : α),
      x ∈ dedupAcc seen l ↔ (x ∈ l ∧ x ∉ seen) := by
  induction l with
  | nil => intro seen x; simp [dedupAcc]
  | cons y ys ih =>
    intro seen x
    simp only [dedupAcc]
    by_cases h : seen.contains y = true
    · rw [if_pos h]
      have h2m : y ∈ seen := by simpa using h
      rw [ih]
      constructor
      · rintro ⟨h1, h2⟩
        exact ⟨List.mem_cons_of_mem y h1, h2⟩
      · rintro ⟨h1, h2⟩
        rcases List.mem_cons.mp h1 with heq | hmem
        · subst heq; exact absurd h2m h2
        · exact ⟨hmem, h2⟩
    · rw [if_neg h]
      have h2m : y ∉ seen := by simpa using h
      constructor
      · intro hx
        rcases List.mem_cons.mp hx with heq | hmem
        · subst heq; exact ⟨List.mem_cons_self x ys, h2m⟩
        · obtain ⟨h1, h2⟩ := (ih (y :: seen) x).mp hmem
          refine ⟨List.mem_cons_of_mem y h1, ?_⟩
          intro hcon
          exact h2 (List.mem_cons_of_mem y hcon)
      · rintro ⟨h1, h2⟩
        rcases List.mem_cons.mp h1 with heq | hmem
        · subst heq; exact List.mem_cons_self x _
        · by_cases hxy : x = y
          · subst hxy; exact List.mem_cons_self x _
          · refine List.mem_cons_of_mem y ((ih (y :: seen) x).mpr ⟨hmem, ?_⟩)
            intro hcon
            rcases List.mem_cons.mp hcon with heq2 | hmem2
            · exact hxy heq2
            · exact h2 hmem2

/-! ## Phase lemmas for `saveToDatabase` -/

theorem coursePhase_students (db : DB) (pd : ProcessedData) :
    (coursePhase db pd).db.students = db.students := by
  unfold coursePhase
  split <;> rfl

theorem coursePhase_attendance (db : DB) (pd : ProcessedData) :
    (coursePhase db pd).db.attendance = db.attendance := by
  unfold coursePhase
  split <;> rfl

theorem coursePhase_courses_mono (db : DB) (pd : ProcessedData) :
    ∀ c ∈ db.courses, c ∈ (coursePhase db pd).db.courses := by
  unfold coursePhase
  split
  · intro c hc
    exact conflictInsert_subset _ _ _ _ _ c hc
  · intro c hc
    exact hc

theorem coursePhase_rows_eq (db : DB) (pd : ProcessedData) :
    (coursePhase db pd).rows = (coursePhase db pd).db.courses.filter
      (fun c => (incomingCodesOf pd).contains c.course_code) := by
  unfold coursePhase
  split
  · rfl
  · rfl

theorem coursePhase_covers (db : DB) (pd : ProcessedData) :
    ∀ code ∈ incomingCodesOf pd,
      ∃ c ∈ (coursePhase db pd).db.courses, c.course_code = code := by
  intro code hcode
  unfold coursePhase
  by_cases hnew : 0 < (newCourseCodes db pd).length
  · rw [if_pos hnew]
    by_cases hfound :
        ((courseExisting db pd).find?
          (fun c => c.course_code = code)).isSome = true
    · rw [List.find?_isSome] at hfound
      obtain ⟨c, hc, hkey⟩ := hfound
      refine ⟨c, ?_, by simpa using hkey⟩
      exact conflictInsert_subset _ _ _ _ _ c
        (List.mem_of_mem_filter hc)
    · have hnone : (courseExisting db pd).find?
          (fun c => c.course_code = code) = none := by
        cases hf : (courseExisting db pd).find?
            (fun c => c.course_code = code) with
        | none => rfl
        | some c => rw [hf] at hfound; simp at hfound
      have hmemnew : code ∈ newCourseCodes db pd := by
        unfold newCourseCodes
        rw [List.mem_filter]
        exact ⟨hcode, by simp [hnone]⟩
      have hitem : ∃ it ∈ coursesToCreate db pd, it.code = code := by
        unfold coursesToCreate
        refine ⟨((pd.courses.map Prod.snd).find?
          (fun c => c.code = code)).getD ⟨code, ""⟩, ?_, ?_⟩
        · exact List.mem_map.mpr ⟨code, hmemnew, rfl⟩
        · cases hf : (pd.courses.map Prod.snd).find? (fun c => c.code = code) with
          | none => rfl
          | some c =>
            have := List.find?_some hf
            simpa using this
      obtain ⟨it, hit, hitcode⟩ := hitem
      obtain ⟨r, hr, hkey⟩ := conflictInsert_covers
        (fun c : DBCourse => c.course_code) (fun i : CourseInfo => i.code)
        (fun n i => ⟨n, i.code, i.name⟩) (fun _ _ => rfl)
        (coursesToCreate db pd) (db.courses, db.nextCourseId) it hit
      exact ⟨r, hr, by rw [hkey, hitcode]⟩
  · rw [if_neg hnew]
    have hempty : newCourseCodes db pd = [] := by
      have := Nat.eq_zero_of_not_pos hnew
      exact List.eq_nil_of_length_eq_zero this
    have hnotnew : code ∉ newCourseCodes db pd := by
      rw [hempty]; exact List.not_mem_nil code
    unfold newCourseCodes at hnotnew
    rw [List.mem_filter] at hnotnew
    push_neg at hnotnew
    have hsome := hnotnew hcode
    simp only [Option.isNone_iff_eq_none, Bool.not_eq_true] at hsome
    have hsome2 : ((courseExisting db pd).find?
        (fun c => c.course_code = code)).isSome = true := by
      cases hf : (courseExisting db pd).find? (fun c => c.course_code = code) with
      | none => rw [hf] at hsome; simp at hsome
      | some c => rfl
    rw [List.find?_isSome] at hsome2
    obtain ⟨c, hc, hkey⟩ := hsome2
    exact ⟨c, List.mem_of_mem_filter hc, by simpa using hkey⟩

theorem coursePhase_second (db1 : DB) (pd : ProcessedData)
    (hcov : ∀ code ∈ incomingCodesOf pd,
      ∃ c ∈ db1.courses, c.course_code = code) :
    coursePhase db1 pd = ⟨db1, courseExisting db1 pd, 0,
      (dedupAcc [] ((courseExisting db1 pd).map
        (fun c => c.course_code))).length⟩ := by
  have hempty : newCourseCodes db1 pd = [] := by
    unfold newCourseCodes
    rw [List.filter_eq_nil_iff]
    intro code hcode
    obtain ⟨c, hc, hkey⟩ := hcov code hcode
    have hmem : c ∈ courseExisting db1 pd := by
      unfold courseExisting
      rw [List.mem_filter]
      exact ⟨hc, by simpa [hkey] using hcode⟩
    have hsome : ((courseExisting db1 pd).find?
        (fun c => c.course_code = code)).isSome = true := by
      rw [List.find?_isSome]
      exact ⟨c, hmem, by simpa using hkey⟩
    simp only [List.find?_isSome] at hsome
    simp only [Option.isNone_iff_eq_none]
    cases hf : (courseExisting db1 pd).find?
        (fun c => c.course_code = code) with
    | none => simp at hf; obtain ⟨x, hx1, hx2⟩ := hsome; exact absurd hx2 (by simpa using hf x hx1)
    | some c2 => simp [hf]
  unfold coursePhase
  rw [hempty]
  simp

theorem studentPhase_courses (db : DB) (pd : ProcessedData) :
    (studentPhase db pd).db.courses = db.courses := by
  unfold studentPhase
  split <;> rfl

theorem studentPhase_attendance (db : DB) (pd : ProcessedData) :
    (studentPhase db pd).db.attendance = db.attendance := by
  unfold studentPhase
  split <;> rfl

theorem studentPhase_rows_eq (db : DB) (pd : ProcessedData) :
    (studentPhase db pd).rows = (studentPhase db pd).db.students.filter
      (fun s => (incomingRegsOf pd).contains s.registration_no) := by
  unfold studentPhase
  split
  · rfl
  · rfl

theorem studentPhase_covers (db : DB) (pd : ProcessedData) :
    ∀ s ∈ pd.students, ∃ t ∈ (studentPhase db pd).db.students,
      t.registration_no = s.registration_no := by
  intro s hs
  unfold studentPhase
  by_cases hnew : 0 < (newStudentsOf db pd).length
  · rw [if_pos hnew]
    by_cases hfound :
        ((studentExisting db pd).find?
          (fun t => t.registration_no = s.registration_no)).isSome = true
    · rw [List.find?_isSome] at hfound
      obtain ⟨t, ht, hkey⟩ := hfound
      refine ⟨t, ?_, by simpa using hkey⟩
      exact conflictInsert_subset _ _ _ _ _ t (List.mem_of_mem_filter ht)
    · have hnone : (studentExisting db pd).find?
          (fun t => t.registration_no = s.registration_no) = none := by
        cases hf : (studentExisting db pd).find?
            (fun t => t.registration_no = s.registration_no) with
        | none => rfl
        | some t => rw [hf] at hfound; simp at hfound
      have hmemnew : s ∈ newStudentsOf db pd := by
        unfold newStudentsOf
        rw [List.mem_filter]
        exact ⟨hs, by simp [hnone]⟩
      obtain ⟨r, hr, hkey⟩ := conflictInsert_covers
        (fun t : DBStudent => t.registration_no)
        (fun s : StudentData => s.registration_no)
        (fun n s => ⟨n, s.admission_no, s.registration_no, s.name⟩)
        (fun _ _ => rfl) (newStudentsOf db pd)
        (db.students, db.nextStudentId) s hmemnew
      exact ⟨r, hr, hkey⟩
  · rw [if_neg hnew]
    have hempty : newStudentsOf db pd = [] :=
      List.eq_nil_of_length_eq_zero (Nat.eq_zero_of_not_pos hnew)
    have hnotnew : s ∉ newStudentsOf db pd := by
      rw [hempty]; exact List.not_mem_nil s
    unfold newStudentsOf at hnotnew
    rw [List.mem_filter] at hnotnew
    push_neg at hnotnew
    have hsome := hnotnew hs
    simp only [Option.isNone_iff_eq_none, Bool.not_eq_true] at hsome
    have hsome2 : ((studentExisting db pd).find?
        (fun t => t.registration_no = s.registration_no)).isSome = true := by
      cases hf : (studentExisting db pd).find?
          (fun t => t.registration_no = s.registration_no) with
      | none => rw [hf] at hsome; simp at hsome
      | some t => rfl
    rw [List.find?_isSome] at hsome2
    obtain ⟨t, ht, hkey⟩ := hsome2
    exact ⟨t, List.mem_of_mem_filter ht, by simpa using hkey⟩

theorem studentPhase_second (db1 : DB) (pd : ProcessedData)
    (hcov : ∀ s ∈ pd.students,
      ∃ t ∈ db1.students, t.registration_no = s.registration_no) :
    (studentPhase db1 pd).db = db1 ∧
    (studentPhase db1 pd).rows = db1.students.filter
      (fun s => (incomingRegsOf pd).contains s.registration_no) := by
  have hnoop : studentInsertResult db1 pd = (db1.students, db1.nextStudentId) := by
    unfold studentInsertResult
    apply conflictInsert_noop
    intro s hsnew
    have hs : s ∈ pd.students := by
      unfold newStudentsOf at hsnew
      exact List.mem_of_mem_filter hsnew
    obtain ⟨t, ht, hkey⟩ := hcov s hs
    exact ⟨t, ht, hkey⟩
  unfold studentPhase
  by_cases hnew : 0 < (newStudentsOf db1 pd).length
  · rw [if_pos hnew]
    rw [hnoop]
    exact ⟨rfl, rfl⟩
  · rw [if_neg hnew]
    refine ⟨rfl, ?_⟩
    unfold studentExisting
    rfl

/-! ## Attendance fold lemmas -/

theorem attFoldStep_none (courseRows : List DBCourse)
    (studentRows : List DBStudent) (attSet : List (ℕ × ℕ))
    (acc : List DBAttendance × ℕ) (a : AttendanceData)
    (h : resolveTuple courseRows studentRows a = none) :
    attFoldStep courseRows studentRows attSet acc a = acc := by
  unfold attFoldStep
  rw [h]

theorem attFoldStep_dup (courseRows : List DBCourse)
    (studentRows : List DBStudent) (attSet : List (ℕ × ℕ))
    (acc : List DBAttendance × ℕ) (a : AttendanceData) (k : ℕ × ℕ)
    (h : resolveTuple courseRows studentRows a = some k)
    (hset : attSet.contains k = true) :
    attFoldStep courseRows studentRows attSet acc a = (acc.1, acc.2 + 1) := by
  unfold attFoldStep
  rw [h]
  simp only [hset, if_true]

theorem attFoldStep_add (courseRows : List DBCourse)
    (studentRows : List DBStudent) (attSet : List (ℕ × ℕ))
    (acc : List DBAttendance × ℕ) (a : AttendanceData) (k : ℕ × ℕ)
    (h : resolveTuple courseRows studentRows a = some k)
    (hset : attSet.contains k = false) :
    attFoldStep courseRows studentRows attSet acc a =
      (acc.1 ++ [⟨k.1, k.2, a.attended_periods, a.conducted_periods,
        a.attendance_percentage⟩], acc.2) := by
  unfold attFoldStep
  rw [h]
  simp only [hset, Bool.false_eq_true, if_false]

theorem attFold_mono (courseRows : List DBCourse)
    (studentRows : List DBStudent) (attSet : List (ℕ × ℕ))
    (l : List AttendanceData) :
    ∀ acc : List DBAttendance × ℕ, ∀ r ∈ acc.1,
      r ∈ (l.foldl (attFoldStep courseRows studentRows attSet) acc).1 := by
  induction l with
  | nil => intro acc r hr; exact hr
  | cons a rest ih =>
    intro acc r hr
    simp only [List.foldl_cons]
    cases hres : resolveTuple courseRows studentRows a with
    | none =>
      rw [attFoldStep_none _ _ _ _ _ hres]
      exact ih acc r hr
    | some k =>
      cases hset : attSet.contains k with
      | true =>
        rw [attFoldStep_dup _ _ _ _ _ k hres hset]
        exact ih _ r hr
      | false =>
        rw [attFoldStep_add _ _ _ _ _ k hres hset]
        exact ih _ r (List.mem_append_left _ hr)

theorem attFold_key_present (courseRows : List DBCourse)
    (studentRows : List DBStudent) (attSet : List (ℕ × ℕ))
    (l : List AttendanceData) :
    ∀ acc : List DBAttendance × ℕ, ∀ a ∈ l, ∀ k : ℕ × ℕ,
      resolveTuple courseRows studentRows a = some k →
      attSet.contains k = false →
      ∃ r ∈ (l.foldl (attFoldStep courseRows studentRows attSet) acc).1,
        (r.student_id, r.course_id) = k := by
  induction l with
  | nil => intro acc a ha; exact absurd ha (List.not_mem_nil a)
  | cons a0 rest ih =>
    intro acc a ha k hres hset
    simp only [List.foldl_cons]
    rcases List.mem_cons.mp ha with heq | hmem
    · subst heq
      rw [attFoldStep_add _ _ _ _ _ k hres hset]
      refine ⟨⟨k.1, k.2, a.attended_periods, a.conducted_periods,
        a.attendance_percentage⟩, ?_, rfl⟩
      exact attFold_mono _ _ _ rest _ _
        (List.mem_append_right _ (List.mem_singleton_self _))
    · cases hres0 : resolveTuple courseRows studentRows a0 with
      | none =>
        rw [attFoldStep_none _ _ _ _ _ hres0]
        exact ih acc a hmem k hres hset
      | some k0 =>
        cases hset0 : attSet.contains k0 with
        | true =>
          rw [attFoldStep_dup _ _ _ _ _ k0 hres0 hset0]
          exact ih _ a hmem k hres hset
        | false =>
          rw [attFoldStep_add _ _ _ _ _ k0 hres0 hset0]
          exact ih _ a hmem k hres hset

theorem attFold_all_dup (courseRows : List DBCourse)
    (studentRows : List DBStudent) (attSet : List (ℕ × ℕ))
    (l : List AttendanceData)
    (h : ∀ a ∈ l, ∀ k : ℕ × ℕ,
      resolveTuple courseRows studentRows a = some k →
      attSet.contains k = true) :
    ∀ acc : List DBAttendance × ℕ,
      l.foldl (attFoldStep courseRows studentRows attSet) acc =
        (acc.1, acc.2 + (l.filter
          (fun a => (resolveTuple courseRows studentRows a).isSome)).length) := by
  induction l with
  | nil => intro acc; simp
  | cons a0 rest ih =>
    intro acc
    simp only [List.foldl_cons]
    have hrest : ∀ a ∈ rest, ∀ k : ℕ × ℕ,
        resolveTuple courseRows studentRows a = some k →
        attSet.contains k = true :=
      fun a ha => h a (List.mem_cons_of_mem a0 ha)
    cases hres : resolveTuple courseRows studentRows a0 with
    | none =>
      rw [attFoldStep_none _ _ _ _ _ hres]
      rw [ih hrest acc]
      simp [List.filter_cons, hres]
    | some k =>
      have hset : attSet.contains k = true :=
        h a0 (List.mem_cons_self a0 rest) k hres
      rw [attFoldStep_dup _ _ _ _ _ k hres hset]
      rw [ih hrest (acc.1, acc.2 + 1)]
      simp only [List.filter_cons, hres, Option.isSome_some, if_true]
      simp only [List.length_cons, Prod.mk.injEq]
      exact ⟨trivial, by omega⟩

theorem attFold_prop {P : DBAttendance → Prop} (courseRows : List DBCourse)
    (studentRows : List DBStudent) (attSet : List (ℕ × ℕ))
    (l : List AttendanceData)
    (hl : ∀ a ∈ l, ∀ k : ℕ × ℕ,
      P ⟨k.1, k.2, a.attended_periods, a.conducted_periods,
        a.attendance_percentage⟩) :
    ∀ acc : List DBAttendance × ℕ, (∀ r ∈ acc.1, P r) →
      ∀ r ∈ (l.foldl (attFoldStep courseRows studentRows attSet) acc).1,
        P r := by
  induction l with
  | nil => intro acc hacc r hr; exact hacc r hr
  | cons a0 rest ih =>
    intro acc hacc r hr
    simp only [List.foldl_cons] at hr
    have hrest : ∀ a ∈ rest, ∀ k : ℕ × ℕ,
        P ⟨k.1, k.2, a.attended_periods, a.conducted_periods,
          a.attendance_percentage⟩ :=
      fun a ha => hl a (List.mem_cons_of_mem a0 ha)
    cases hres : resolveTuple courseRows studentRows a0 with
    | none =>
      rw [attFoldStep_none _ _ _ _ _ hres] at hr
      exact ih hrest acc hacc r hr
    | some k =>
      cases hset : attSet.contains k with
      | true =>
        rw [attFoldStep_dup _ _ _ _ _ k hres hset] at hr
        exact ih hrest (acc.1, acc.2 + 1) hacc r hr
      | false =>
        rw [attFoldStep_add _ _ _ _ _ k hres hset] at hr
        refine ih hrest _ ?_ r hr
        intro x hx
        rcases List.mem_append.mp hx with hin | hin
        · exact hacc x hin
        · simp only [List.mem_singleton] at hin
          subst hin
          exact hl a0 (List.mem_cons_self a0 rest) k

/-! ## `saveToDatabase` structure lemmas -/

theorem save_db_courses (db : DB) (pd : ProcessedData) :
    (saveToDatabase db pd).1.courses =
      (studentPhase (coursePhase db pd).db pd).db.courses := by
  unfold saveToDatabase
  split <;> rfl

theorem save_db_students (db : DB) (pd : ProcessedData) :
    (saveToDatabase db pd).1.students =
      (studentPhase (coursePhase db pd).db pd).db.students := by
  unfold saveToDatabase
  split <;> rfl

theorem save_attendance_mono (db : DB) (pd : ProcessedData) :
    ∀ r ∈ db.attendance, r ∈ (saveToDatabase db pd).1.attendance := by
  intro r hr
  have hbase : r ∈ (studentPhase (coursePhase db pd).db pd).db.attendance := by
    rw [studentPhase_attendance, coursePhase_attendance]
    exact hr
  unfold saveToDatabase
  by_cases hlen : (filteredAttendanceOf pd).length = 0
  · rw [if_pos hlen]
    exact hbase
  · rw [if_neg hlen]
    show r ∈ insertAttendanceRows _ _
    unfold insertAttendanceRows
    exact conflictInsert_subset _ _ _ _ _ r hbase

theorem save_att_key (db : DB) (pd : ProcessedData) :
    ∀ a ∈ filteredAttendanceOf pd, ∀ k : ℕ × ℕ,
      resolveTuple (coursePhase db pd).rows
        (studentPhase (coursePhase db pd).db pd).rows a = some k →
      ∃ r ∈ (saveToDatabase db pd).1.attendance,
        (r.student_id, r.course_id) = k := by
  intro a ha k hres
  by_cases hlen : (filteredAttendanceOf pd).length = 0
  · rw [List.eq_nil_of_length_eq_zero hlen] at ha
    exact absurd ha (List.not_mem_nil a)
  · unfold saveToDatabase
    rw [if_neg hlen]
    show ∃ r ∈ insertAttendanceRows _ _, _
    cases hset : (attendanceSetOf
        (studentPhase (coursePhase db pd).db pd).db.attendance
        (pairsOf (coursePhase db pd).rows
          (studentPhase (coursePhase db pd).db pd).rows
          (filteredAttendanceOf pd))).contains k with
    | true =>
      have hmem : k ∈ attendanceSetOf
          (studentPhase (coursePhase db pd).db pd).db.attendance
          (pairsOf (coursePhase db pd).rows
            (studentPhase (coursePhase db pd).db pd).rows
            (filteredAttendanceOf pd)) := by
        simpa using hset
      unfold attendanceSetOf at hmem
      obtain ⟨r, hr, hrk⟩ := List.mem_map.mp hmem
      refine ⟨r, ?_, hrk⟩
      unfold insertAttendanceRows
      exact conflictInsert_subset _ _ _ _ _ r (List.mem_of_mem_filter hr)
    | false =>
      obtain ⟨row, hrow, hrowk⟩ := attFold_key_present
        (coursePhase db pd).rows
        (studentPhase (coursePhase db pd).db pd).rows _
        (filteredAttendanceOf pd) ([], 0) a ha k hres hset
      obtain ⟨r, hr, hrk⟩ := conflictInsert_covers
        (fun t : DBAttendance => (t.student_id, t.course_id))
        (fun t : DBAttendance => (t.student_id, t.course_id))
        (fun _ t => t) (fun _ _ => rfl) _
        ((studentPhase (coursePhase db pd).db pd).db.attendance, 0) row hrow
      exact ⟨r, hr, hrk.trans hrowk⟩

/-! ## Claim C4 — minimum conducted-periods invariant -/

/-- Claim C4: `saveToDatabase` never persists an attendance row whose
conducted-period count is below the minimum threshold of 5: if every row
already in the table meets the threshold, every row after the call does
too (inserted rows come only from tuples that passed the filter of line
337). -/
theorem claim4_threshold_invariant (db : DB) (pd : ProcessedData)
    (h : ∀ r ∈ db.attendance, r.conducted_periods ≥ minConductedPeriods) :
    ∀ r ∈ (saveToDatabase db pd).1.attendance,
      r.conducted_periods ≥ minConductedPeriods := by
  have hbase : ∀ r ∈ (studentPhase (coursePhase db pd).db pd).db.attendance,
      r.conducted_periods ≥ minConductedPeriods := by
    intro r hr
    rw [studentPhase_attendance, coursePhase_attendance] at hr
    exact h r hr
  unfold saveToDatabase
  by_cases hlen : (filteredAttendanceOf pd).length = 0
  · rw [if_pos hlen]
    exact hbase
  · rw [if_neg hlen]
    intro r hr
    have hr2 : r ∈ insertAttendanceRows
        (studentPhase (coursePhase db pd).db pd).db.attendance
        (attFolded (coursePhase db pd).rows
          (studentPhase (coursePhase db pd).db pd).rows
          (attendanceSetOf
            (studentPhase (coursePhase db pd).db pd).db.attendance
            (pairsOf (coursePhase db pd).rows
              (studentPhase (coursePhase db pd).db pd).rows
              (filteredAttendanceOf pd)))
          (filteredAttendanceOf pd)).1 := hr
    unfold insertAttendanceRows at hr2
    refine conflictInsert_prop _ _ _ _ ?_ _ hbase r hr2
    intro n it hit
    have hfold : ∀ x ∈ (attFolded (coursePhase db pd).rows
        (studentPhase (coursePhase db pd).db pd).rows
        (attendanceSetOf
          (studentPhase (coursePhase db pd).db pd).db.attendance
          (pairsOf (coursePhase db pd).rows
            (studentPhase (coursePhase db pd).db pd).rows
            (filteredAttendanceOf pd)))
        (filteredAttendanceOf pd)).1,
        x.conducted_periods ≥ minConductedPeriods := by
      unfold attFolded
      refine attFold_prop _ _ _ _ ?_ ([], 0) ?_
      · intro a ha k
        have hmem := List.mem_filter.mp ha
        simpa using hmem.2
      · intro x hx
        exact absurd hx (List.not_mem_nil x)
    exact hfold it hit

/-- Witness for `claim4_threshold_invariant` at the empty database and
the one-row demo file. -/
theorem claim4_threshold_invariant_witness :
    (∀ r ∈ demoDB.attendance,
      r.conducted_periods ≥ minConductedPeriods) ∧
    (∀ r ∈ (saveToDatabase demoDB demoPD).1.attendance,
      r.conducted_periods ≥ minConductedPeriods) :=
  ⟨by intro r hr; exact absurd hr (List.not_mem_nil r),
    claim4_threshold_invariant demoDB demoPD
      (by intro r hr; exact absurd hr (List.not_mem_nil r))⟩

/-! ## Claim C1 — idempotence of `saveToDatabase` -/

/-- Claim C1: running `saveToDatabase` a second time on the same
`ProcessedData` leaves the database exactly as the first run left it,
reports `inserted = 0`, and reports every qualifying tuple — one that
passed the conducted-periods threshold and whose student and course
resolve — as `skipped_duplicate`. -/
theorem claim1_saveToDatabase_idempotent (db : DB) (pd : ProcessedData) :
    (saveToDatabase (saveToDatabase db pd).1 pd).1 =
      (saveToDatabase db pd).1 ∧
    (saveToDatabase (saveToDatabase db pd).1 pd).2.inserted = 0 ∧
    (saveToDatabase (saveToDatabase db pd).1 pd).2.skipped_duplicate =
      ((filteredAttendanceOf pd).filter (fun a =>
        (resolveTuple (courseRowsFor (saveToDatabase db pd).1 pd)
          (studentRowsFor (saveToDatabase db pd).1 pd) a).isSome)).length := by
  set db1 := (saveToDatabase db pd).1 with hdb1
  -- entity tables after the first run
  have hAc : (coursePhase db pd).db.courses = db1.courses := by
    rw [hdb1, save_db_courses db pd, studentPhase_courses]
  have hSs : (studentPhase (coursePhase db pd).db pd).db.students
      = db1.students := by
    rw [hdb1, save_db_students db pd]
  -- every incoming code and student is covered by db1
  have hcov : ∀ code ∈ incomingCodesOf pd,
      ∃ c ∈ db1.courses, c.course_code = code := by
    intro code hcode
    obtain ⟨c, hc, hkey⟩ := coursePhase_covers db pd code hcode
    exact ⟨c, hAc ▸ hc, hkey⟩
  have hscov : ∀ s ∈ pd.students,
      ∃ t ∈ db1.students, t.registration_no = s.registration_no := by
    intro s hs
    obtain ⟨t, ht, hkey⟩ := studentPhase_covers (coursePhase db pd).db pd s hs
    exact ⟨t, hSs ▸ ht, hkey⟩
  -- the second run reuses everything
  have hA2 := coursePhase_second db1 pd hcov
  have hA2db : (coursePhase db1 pd).db = db1 := by rw [hA2]
  have hA2rows : (coursePhase db1 pd).rows = courseExisting db1 pd := by
    rw [hA2]
  have hS2 := studentPhase_second db1 pd hscov
  -- the maps of the two runs coincide
  have hrowsC : (coursePhase db pd).rows = (coursePhase db1 pd).rows := by
    rw [coursePhase_rows_eq db pd, hA2rows, hAc]
    rfl
  have hrowsS : (studentPhase (coursePhase db pd).db pd).rows
      = (studentPhase db1 pd).rows := by
    rw [studentPhase_rows_eq (coursePhase db pd).db pd, hSs, hS2.2]
  -- every resolvable qualifying tuple is already present in db1
  have hdup : ∀ a ∈ filteredAttendanceOf pd, ∀ k : ℕ × ℕ,
      resolveTuple (coursePhase db1 pd).rows (studentPhase db1 pd).rows a
        = some k →
      (attendanceSetOf db1.attendance
        (pairsOf (coursePhase db1 pd).rows (studentPhase db1 pd).rows
          (filteredAttendanceOf pd))).contains k = true := by
    intro a ha k hres
    have hres1 : resolveTuple (coursePhase db pd).rows
        (studentPhase (coursePhase db pd).db pd).rows a = some k := by
      rw [hrowsC, hrowsS]
      exact hres
    obtain ⟨r, hr, hrk⟩ := save_att_key db pd a ha k hres1
    rw [← hdb1] at hr
    have hkpairs : k ∈ pairsOf (coursePhase db1 pd).rows
        (studentPhase db1 pd).rows (filteredAttendanceOf pd) := by
      unfold pairsOf
      exact List.mem_filterMap.mpr ⟨a, ha, hres⟩
    have hmem : k ∈ attendanceSetOf db1.attendance
        (pairsOf (coursePhase db1 pd).rows (studentPhase db1 pd).rows
          (filteredAttendanceOf pd)) := by
      unfold attendanceSetOf
      refine List.mem_map.mpr ⟨r, ?_, hrk⟩
      rw [List.mem_filter]
      refine ⟨hr, ?_⟩
      rw [hrk]
      simpa using hkpairs
    simpa using hmem
  by_cases hlen : (filteredAttendanceOf pd).length = 0
  · have hnil : filteredAttendanceOf pd = [] :=
      List.eq_nil_of_length_eq_zero hlen
    refine ⟨?_, ?_, ?_⟩
    · show (saveToDatabase db1 pd).1 = db1
      unfold saveToDatabase
      rw [if_pos hlen]
      show (studentPhase (coursePhase db1 pd).db pd).db = db1
      rw [hA2db]
      exact hS2.1
    · show (saveToDatabase db1 pd).2.inserted = 0
      unfold saveToDatabase
      rw [if_pos hlen]
    · show (saveToDatabase db1 pd).2.skipped_duplicate = _
      unfold saveToDatabase
      rw [if_pos hlen]
      rw [hnil]
      rfl
  · have hfold2 : attFolded (coursePhase db1 pd).rows
        (studentPhase db1 pd).rows
        (attendanceSetOf db1.attendance
          (pairsOf (coursePhase db1 pd).rows (studentPhase db1 pd).rows
            (filteredAttendanceOf pd)))
        (filteredAttendanceOf pd)
        = ([], ((filteredAttendanceOf pd).filter (fun a =>
            (resolveTuple (coursePhase db1 pd).rows
              (studentPhase db1 pd).rows a).isSome)).length) := by
      unfold attFolded
      have := attFold_all_dup (coursePhase db1 pd).rows
        (studentPhase db1 pd).rows
        (attendanceSetOf db1.attendance
          (pairsOf (coursePhase db1 pd).rows (studentPhase db1 pd).rows
            (filteredAttendanceOf pd)))
        (filteredAttendanceOf pd) hdup ([], 0)
      simpa using this
    refine ⟨?_, ?_, ?_⟩
    · show (saveToDatabase db1 pd).1 = db1
      unfold saveToDatabase
      rw [if_neg hlen, hA2db, hS2.1, hfold2]
      rfl
    · show (saveToDatabase db1 pd).2.inserted = 0
      unfold saveToDatabase
      rw [if_neg hlen, hA2db, hS2.1, hfold2]
      rfl
    · show (saveToDatabase db1 pd).2.skipped_duplicate = _
      unfold saveToDatabase
      rw [if_neg hlen, hA2db, hS2.1, hfold2]
      rfl

/-! ## Claim C2 — per-user query scoping -/

/-- Claim C2 as stated is false: the ingestion path's course existence
lookup (`saveToDatabase`, line 283) filters only by course code, so
against the user-scoped schema it returns an entity owned by user "A"
even though the upload is on behalf of user "B" — while the scoped
db-layer lookup for "B" correctly returns nothing. -/
theorem claim2_counterexample :
    ingestionCourseLookup [⟨1, "A", "21CS101", "Alpha"⟩] ["21CS101"] =
      [⟨1, "A", "21CS101", "Alpha"⟩] ∧
    courseFindMany [⟨1, "A", "21CS101", "Alpha"⟩] "B" (some ["21CS101"]) =
      [] ∧
    ("A" : String) ≠ "B" := by
  refine ⟨by decide, by decide, by decide⟩

/-- Claim C2 (amended): every query of the db query layer
(`db/index.ts`) that takes a user id is scoped to it — the `findMany`
lookups return only rows owned by the given user (`attendanceRecord`
lookups whenever a `user_id` filter is supplied), and the `deleteMany`
operations remove exactly the given user's rows.  The ingestion path's
existence lookups in `saveToDatabase`, however, filter only by natural
key and are not user-scoped. -/
theorem claim2_db_layer_scoping :
    (∀ (tbl : List PgStudent) (uid : String) (regIn : Option (List String)),
      ∀ s ∈ studentFindMany tbl uid regIn, s.user_id = uid) ∧
    (∀ (tbl : List PgCourse) (uid : String) (codeIn : Option (List String)),
      ∀ c ∈ courseFindMany tbl uid codeIn, c.user_id = uid) ∧
    (∀ (tbl : List PgAttendanceRecord) (uid : String) (sid cid : Option ℕ),
      ∀ r ∈ attendanceFindMany tbl (some uid) sid cid, r.user_id = uid) ∧
    (∀ (tbl : List PgStudent) (uid : String), ∀ s ∈ tbl,
      (s ∈ studentDeleteMany tbl uid ↔ ¬s.user_id = uid)) ∧
    (∀ (tbl : List PgCourse) (uid : String), ∀ c ∈ tbl,
      (c ∈ courseDeleteMany tbl uid ↔ ¬c.user_id = uid)) ∧
    (∀ (tbl : List PgAttendanceRecord) (uid : String), ∀ r ∈ tbl,
      (r ∈ attendanceDeleteMany tbl uid ↔ ¬r.user_id = uid)) := by
  refine ⟨?_, ?_, ?_, ?_, ?_, ?_⟩
  · intro tbl uid regIn s hs
    cases regIn with
    | some regs =>
      have h2 := (List.mem_filter.mp hs).2
      simp only [Bool.and_eq_true, decide_eq_true_eq] at h2
      exact h2.1
    | none =>
      have h2 := (List.mem_filter.mp hs).2
      simpa using h2
  · intro tbl uid codeIn c hc
    cases codeIn with
    | some codes =>
      have h2 := (List.mem_filter.mp hc).2
      simp only [Bool.and_eq_true, decide_eq_true_eq] at h2
      exact h2.1
    | none =>
      have h2 := (List.mem_filter.mp hc).2
      simpa using h2
  · intro tbl uid sid cid r hr
    have := (List.mem_filter.mp hr).2
    simp only [Bool.and_eq_true, decide_eq_true_eq] at this
    exact this.1.1
  · intro tbl uid s hs
    unfold studentDeleteMany
    rw [List.mem_filter]
    simp [hs]
  · intro tbl uid c hc
    unfold courseDeleteMany
    rw [List.mem_filter]
    simp [hc]
  · intro tbl uid r hr
    unfold attendanceDeleteMany
    rw [List.mem_filter]
    simp [hr]

/-- Witness for `claim2_db_layer_scoping`: the scoped student lookup at
a concrete one-row table returns only rows owned by "A". -/
theorem claim2_db_layer_scoping_witness :
    (⟨1, "A", "A1", "R1", "John"⟩ : PgStudent).user_id = "A" :=
  claim2_db_layer_scoping.1 [⟨1, "A", "A1", "R1", "John"⟩] "A" none
    ⟨1, "A", "A1", "R1", "John"⟩ (by decide)

/-! ## Claim C3 — multi-file upload batch behavior -/

/-- Claim C3 as stated is false: in a batch whose second file fails to
process, the route returns a 500 failure immediately — the third file is
never attempted and the response is not a success even though the first
file processed (and stays committed, logged in `files_logged`). -/
theorem claim3_counterexample :
    (uploadPost [⟨"a.xlsx", FileOutcome.processed⟩,
      ⟨"b.xlsx", FileOutcome.parseFail⟩,
      ⟨"c.xlsx", FileOutcome.processed⟩]).success = false ∧
    (uploadPost [⟨"a.xlsx", FileOutcome.processed⟩,
      ⟨"b.xlsx", FileOutcome.parseFail⟩,
      ⟨"c.xlsx", FileOutcome.processed⟩]).status = 500 ∧
    "c.xlsx" ∉ (uploadPost [⟨"a.xlsx", FileOutcome.processed⟩,
      ⟨"b.xlsx", FileOutcome.parseFail⟩,
      ⟨"c.xlsx", FileOutcome.processed⟩]).attempted ∧
    (uploadPost [⟨"a.xlsx", FileOutcome.processed⟩,
      ⟨"b.xlsx", FileOutcome.parseFail⟩,
      ⟨"c.xlsx", FileOutcome.processed⟩]).files_logged = ["a.xlsx"] := by
  refine ⟨by decide, by decide, by decide, by decide⟩

theorem uploadLoop_success (files : List UploadFile) :
    ∀ (processed : ℕ) (errors logs attempted : List String),
      ((uploadLoop files processed errors logs attempted).success = true ↔
        ((∀ f ∈ files,
            allowedExts.contains (fileExt f.originalname) = true →
            f.outcome = FileOutcome.processed) ∧
          (0 < processed ∨ ∃ f ∈ files,
            allowedExts.contains (fileExt f.originalname) = true))) := by
  induction files with
  | nil =>
    intro processed errors logs attempted
    simp only [uploadLoop]
    by_cases hp : 0 < processed
    · rw [if_pos hp]
      simp [hp]
    · rw [if_neg hp]
      simp [hp]
  | cons f rest ih =>
    intro processed errors logs attempted
    simp only [uploadLoop]
    by_cases hext : allowedExts.contains (fileExt f.originalname) = true
    · rw [hext]
      simp only [Bool.not_true, Bool.false_eq_true, if_false]
      cases hout : f.outcome with
      | processed =>
        rw [ih]
        constructor
        · rintro ⟨hall, _⟩
          refine ⟨?_, Or.inr ⟨f, List.mem_cons_self f rest, hext⟩⟩
          intro g hg hgext
          rcases List.mem_cons.mp hg with heq | hmem
          · subst heq; exact hout
          · exact hall g hmem hgext
        · rintro ⟨hall, _⟩
          exact ⟨fun g hg hgext =>
            hall g (List.mem_cons_of_mem f hg) hgext, Or.inl (Nat.succ_pos _)⟩
      | parseFail =>
        simp only []
        constructor
        · intro hcon
          exact absurd hcon (by decide)
        · rintro ⟨hall, _⟩
          have := hall f (List.mem_cons_self f rest) hext
          rw [hout] at this
          exact absurd this (by decide)
      | saveFail =>
        simp only []
        constructor
        · intro hcon
          exact absurd hcon (by decide)
        · rintro ⟨hall, _⟩
          have := hall f (List.mem_cons_self f rest) hext
          rw [hout] at this
          exact absurd this (by decide)
    · have hext2 : allowedExts.contains (fileExt f.originalname) = false :=
        Bool.eq_false_iff.mpr hext
      rw [hext2]
      simp only [Bool.not_false, if_true]
      rw [ih]
      constructor
      · rintro ⟨hall, hsome⟩
        refine ⟨?_, ?_⟩
        · intro g hg hgext
          rcases List.mem_cons.mp hg with heq | hmem
          · subst heq
            rw [hext2] at hgext
            exact absurd hgext (by decide)
          · exact hall g hmem hgext
        · rcases hsome with hp | ⟨g, hg, hgext⟩
          · exact Or.inl hp
          · exact Or.inr ⟨g, List.mem_cons_of_mem f hg, hgext⟩
      · rintro ⟨hall, hsome⟩
        refine ⟨fun g hg => hall g (List.mem_cons_of_mem f hg), ?_⟩
        rcases hsome with hp | ⟨g, hg, hgext⟩
        · exact Or.inl hp
        · rcases List.mem_cons.mp hg with heq | hmem
          · subst heq
            rw [hext2] at hgext
            exact absurd hgext (by decide)
          · exact Or.inr ⟨g, hmem, hgext⟩

/-- Claim C3 (amended): a file with a disallowed extension is skipped
without aborting the batch, but a file whose parse or save fails aborts
the batch at once: the remaining files are not attempted and the
response is a 500 failure naming that file even when earlier files
succeeded (their commits persist).  Hence, for a batch within the size
limit, the response is a success exactly when at least one file has an
allowed extension and every allowed-extension file processes
successfully. -/
theorem claim3_upload_batch (files : List UploadFile)
    (hub : files.length ≤ 21) :
    ((uploadPost files).success = true ↔
      ((∀ f ∈ files, allowedExts.contains (fileExt f.originalname) = true →
          f.outcome = FileOutcome.processed) ∧
        (∃ f ∈ files,
          allowedExts.contains (fileExt f.originalname) = true))) := by
  unfold uploadPost
  by_cases hnil : files.length = 0
  · rw [if_pos hnil]
    have : files = [] := List.eq_nil_of_length_eq_zero hnil
    subst this
    simp
  · rw [if_neg hnil]
    rw [if_neg (by omega : ¬21 < files.length)]
    rw [uploadLoop_success files 0 [] [] []]
    constructor
    · rintro ⟨hall, hsome⟩
      rcases hsome with hp | h
      · exact absurd hp (by decide)
      · exact ⟨hall, h⟩
    · rintro ⟨hall, h⟩
      exact ⟨hall, Or.inr h⟩

/-- Witness for `claim3_upload_batch` at a singleton successful batch. -/
theorem claim3_upload_batch_witness :
    ((uploadPost [⟨"a.xlsx", FileOutcome.processed⟩]).success = true ↔
      ((∀ f ∈ [(⟨"a.xlsx", FileOutcome.processed⟩ : UploadFile)],
          allowedExts.contains (fileExt f.originalname) = true →
          f.outcome = FileOutcome.processed) ∧
        (∃ f ∈ [(⟨"a.xlsx", FileOutcome.processed⟩ : UploadFile)],
          allowedExts.contains (fileExt f.originalname) = true))) :=
  claim3_upload_batch [⟨"a.xlsx", FileOutcome.processed⟩] (by decide)

/-! ## Claim C8 — aggregation caching -/

/-- Claim C8 as stated is false for filtered stats:
`calculateFilteredStats` is not wrapped in `cached` — a second identical
read issues its two queries again (the query counter grows from 2 to 4)
and no cache entry is ever created for it, so there is no cached result
it could return within 60 seconds. -/
theorem claim8_counterexample :
    (calculateFilteredStats demoSvc "u" none none []).2.queries = 2 ∧
    (calculateFilteredStats demoSvc "u" none none []).2.cache = [] ∧
    (calculateFilteredStats
      (calculateFilteredStats demoSvc "u" none none []).2
      "u" none none []).2.queries = 4 := by
  refine ⟨by decide, by decide, by decide⟩

/-- Claim C8 (amended): dashboard-stats reads are cached per user with a
60 s TTL and course-list reads with a 300 s TTL — a fresh entry is
returned without touching the database, and a miss recomputes, issues
one query, and stores the entry with the current timestamp — but
filtered-stats reads are never cached: they leave the cache untouched
and always query the database. -/
theorem claim8_caching (st : SvcState) (uid : String) (now : ℕ) :
    (∀ e : CacheEntry,
      cacheLookup st.cache ("dashboard_stats_" ++ uid) = some e →
      now - e.timestamp < 60000 →
      calculateDashboardStats st uid now = (e.data, st)) ∧
    (cacheLookup st.cache ("dashboard_stats_" ++ uid) = none →
      calculateDashboardStats st uid now =
        (CacheVal.stats (dashboardStatsCompute st.db uid),
          { st with
            queries := st.queries + 1
            cache := cacheSet st.cache ("dashboard_stats_" ++ uid)
              ⟨CacheVal.stats (dashboardStatsCompute st.db uid), now⟩ })) ∧
    (∀ e : CacheEntry,
      cacheLookup st.cache ("dashboard_stats_" ++ uid) = some e →
      ¬(now - e.timestamp < 60000) →
      calculateDashboardStats st uid now =
        (CacheVal.stats (dashboardStatsCompute st.db uid),
          { st with
            queries := st.queries + 1
            cache := cacheSet st.cache ("dashboard_stats_" ++ uid)
              ⟨CacheVal.stats (dashboardStatsCompute st.db uid), now⟩ })) ∧
    (∀ e : CacheEntry,
      cacheLookup st.cache ("all_courses_" ++ uid) = some e →
      now - e.timestamp < 300000 →
      getAllCourses st uid now = (e.data, st)) ∧
    (cacheLookup st.cache ("all_courses_" ++ uid) = none →
      getAllCourses st uid now =
        (CacheVal.courses (getAllCoursesCompute st.db uid),
          { st with
            queries := st.queries + 1
            cache := cacheSet st.cache ("all_courses_" ++ uid)
              ⟨CacheVal.courses (getAllCoursesCompute st.db uid), now⟩ })) ∧
    (∀ (courseCode search : Option String) (excl : List String),
      (calculateFilteredStats st uid courseCode search excl).2.cache =
        st.cache ∧
      st.queries <
        (calculateFilteredStats st uid courseCode search excl).2.queries) := by
  refine ⟨?_, ?_, ?_, ?_, ?_, ?_⟩
  · intro e he hfresh
    unfold calculateDashboardStats cachedRun
    rw [he]
    simp only [if_pos hfresh]
  · intro he
    unfold calculateDashboardStats cachedRun
    rw [he]
  · intro e he hstale
    unfold calculateDashboardStats cachedRun
    rw [he]
    simp only [if_neg hstale]
  · intro e he hfresh
    unfold getAllCourses cachedRun
    rw [he]
    simp only [if_pos hfresh]
  · intro he
    unfold getAllCourses cachedRun
    rw [he]
  · intro courseCode search excl
    refine ⟨rfl, ?_⟩
    show st.queries < st.queries + 2 + _ + _
    omega

/-- Witness for `claim8_caching`: a dashboard read on an empty cache
recomputes, issues one query, and stores the entry. -/
theorem claim8_caching_witness :
    calculateDashboardStats demoSvc "u" 5 =
      (CacheVal.stats (dashboardStatsCompute demoSvc.db "u"),
        { demoSvc with
          queries := demoSvc.queries + 1
          cache := cacheSet demoSvc.cache ("dashboard_stats_" ++ "u")
            ⟨CacheVal.stats (dashboardStatsCompute demoSvc.db "u"), 5⟩ }) :=
  (claim8_caching demoSvc "u" 5).2.1 (by decide)

/-! ## Claim C9 — deleteAttendanceRecord -/

theorem filter_match_le_one (l : List PgAttendanceRecord) (rid : ℕ)
    (uid : String) (h : (l.map (fun r => r.id)).Nodup) :
    (l.filter (fun r => r.id = rid && r.user_id = uid)).length ≤ 1 := by
  induction l with
  | nil => simp
  | cons a rest ih =>
    simp only [List.map_cons, List.nodup_cons] at h
    rw [List.filter_cons]
    by_cases hc : (a.id = rid && a.user_id = uid) = true
    · rw [if_pos hc]
      simp only [Bool.and_eq_true, decide_eq_true_eq] at hc
      have hrest : rest.filter (fun r => r.id = rid && r.user_id = uid)
          = [] := by
        rw [List.filter_eq_nil_iff]
        intro r hr
        simp only [Bool.and_eq_true, decide_eq_true_eq, not_and]
        intro hid
        exfalso
        exact h.1 (List.mem_map.mpr ⟨r, hr, by rw [hid, hc.1]⟩)
      rw [hrest]
      simp
    · rw [if_neg hc]
      exact ih h.2

theorem filter_split_length (l : List PgAttendanceRecord)
    (p : PgAttendanceRecord → Bool) :
    (l.filter p).length + (l.filter (fun r => !(p r))).length = l.length := by
  induction l with
  | nil => simp
  | cons a rest ih =>
    rw [List.filter_cons, List.filter_cons]
    by_cases hc : p a = true
    · rw [if_pos hc, if_neg (by simp [hc])]
      simp only [List.length_cons]
      omega
    · rw [if_neg hc, if_pos (by simp [Bool.eq_false_iff.mpr hc])]
      simp only [List.length_cons]
      omega

/-- Claim C9: `deleteAttendanceRecord` deletes at most the single
attendance record with the given id, and only when that record is owned
by the given user; it returns `true` exactly when a row was deleted, it
never throws (errors are caught and become `false`), the other tables
are never touched, and every `false` return leaves the database
unchanged.  The primary-key hypothesis (`id` column duplicate-free) is
the `SERIAL PRIMARY KEY` of the schema. -/
theorem claim9_delete_record (fail : Bool) (st : SvcState) (uid : String)
    (rid : ℕ) (hids : ((st.db.attendance.map (fun r => r.id)).Nodup)) :
    st.db.attendance.length ≤
      (deleteAttendanceRecord fail st uid rid).2.db.attendance.length + 1 ∧
    (∀ r ∈ st.db.attendance,
      r ∉ (deleteAttendanceRecord fail st uid rid).2.db.attendance →
      r.id = rid ∧ r.user_id = uid) ∧
    (deleteAttendanceRecord fail st uid rid).2.db.students =
      st.db.students ∧
    (deleteAttendanceRecord fail st uid rid).2.db.courses =
      st.db.courses ∧
    ((deleteAttendanceRecord fail st uid rid).1 = true ↔
      (fail = false ∧
        ∃ r ∈ st.db.attendance, r.id = rid ∧ r.user_id = uid)) ∧
    ((deleteAttendanceRecord fail st uid rid).1 = false →
      (deleteAttendanceRecord fail st uid rid).2.db = st.db) := by
  cases fail with
  | true =>
    have hred : deleteAttendanceRecord true st uid rid = (false, st) := rfl
    rw [hred]
    refine ⟨Nat.le_succ _, ?_, rfl, rfl, ?_, ?_⟩
    · intro r hr hnot
      exact absurd hr hnot
    · constructor
      · intro hcon
        simp at hcon
      · rintro ⟨hcon, _⟩; exact absurd hcon (by decide)
    · intro _; rfl
  | false =>
    have hred : deleteAttendanceRecord false st uid rid =
        (decide (0 < (st.db.attendance.filter
          (fun r => r.id = rid && r.user_id = uid)).length),
          { st with
            db := { st.db with attendance := (st.db.attendance.filter
              (fun r => !(r.id = rid && r.user_id = uid))) }
            cache := invalidateCache st.cache
            queries := st.queries + 1 }) := rfl
    rw [hred]
    refine ⟨?_, ?_, rfl, rfl, ?_, ?_⟩
    · have hsplit := filter_split_length st.db.attendance
        (fun r => r.id = rid && r.user_id = uid)
      have hle := filter_match_le_one st.db.attendance rid uid hids
      show st.db.attendance.length ≤ (st.db.attendance.filter
        (fun r => !(r.id = rid && r.user_id = uid))).length + 1
      omega
    · intro r hr hnot
      have hnot2 : r ∈ st.db.attendance.filter
          (fun r => !(r.id = rid && r.user_id = uid)) → False := hnot
      by_cases hc : (r.id = rid && r.user_id = uid) = true
      · simpa using hc
      · exfalso
        exact hnot2 (List.mem_filter.mpr
          ⟨hr, by simp [Bool.eq_false_iff.mpr hc]⟩)
    · show (decide (0 < (st.db.attendance.filter
        (fun r => r.id = rid && r.user_id = uid)).length) = true ↔ _)
      rw [decide_eq_true_iff]
      constructor
      · intro hpos
        refine ⟨rfl, ?_⟩
        have hne : st.db.attendance.filter
            (fun r => r.id = rid && r.user_id = uid) ≠ [] := by
          intro hcon
          rw [hcon] at hpos
          simp at hpos
        obtain ⟨r, hr⟩ := List.exists_mem_of_ne_nil _ hne
        have hm := List.mem_filter.mp hr
        refine ⟨r, hm.1, ?_⟩
        have hb := hm.2
        simp only [Bool.and_eq_true, decide_eq_true_eq] at hb
        exact hb
      · rintro ⟨_, r, hr, hid, huid⟩
        have hmem : r ∈ st.db.attendance.filter
            (fun r => r.id = rid && r.user_id = uid) :=
          List.mem_filter.mpr ⟨hr, by simp [hid, huid]⟩
        have hne : st.db.attendance.filter
            (fun r => r.id = rid && r.user_id = uid) ≠ [] := by
          intro hnil
          rw [hnil] at hmem
          exact absurd hmem (List.not_mem_nil r)
        exact List.length_pos.mpr hne
    · intro hfalse
      have hf2 : decide (0 < (st.db.attendance.filter
          (fun r => r.id = rid && r.user_id = uid)).length) = false := hfalse
      rw [decide_eq_false_iff_not] at hf2
      have hz : ∀ r ∈ st.db.attendance,
          ¬((r.id = rid && r.user_id = uid) = true) := by
        intro r hr hcon
        have hmem : r ∈ st.db.attendance.filter
            (fun r => r.id = rid && r.user_id = uid) :=
          List.mem_filter.mpr ⟨hr, hcon⟩
        have hne : st.db.attendance.filter
            (fun r => r.id = rid && r.user_id = uid) ≠ [] := by
          intro hnil
          rw [hnil] at hmem
          exact absurd hmem (List.not_mem_nil r)
        exact hf2 (List.length_pos.mpr hne)
      show { st.db with attendance := (st.db.attendance.filter
        (fun r => !(r.id = rid && r.user_id = uid))) } = st.db
      have hself : st.db.attendance.filter
          (fun r => !(r.id = rid && r.user_id = uid)) = st.db.attendance := by
        rw [List.filter_eq_self]
        intro r hr
        cases hb : (r.id = rid && r.user_id = uid) with
        | true => exact absurd hb (hz r hr)
        | false => rfl
      rw [hself]

/-- Witness for `claim9_delete_record`: deleting the only record of
`demoSvc` by its owner returns `true`. -/
theorem claim9_delete_record_witness :
    (deleteAttendanceRecord false demoSvc "u" 1).1 = true :=
  ((claim9_delete_record false demoSvc "u" 1 (by decide)).2.2.2.2.1).mpr
    ⟨rfl, ⟨1, "u", 1, 1, 30, 40, 50⟩, by decide, by decide, by decide⟩

/-! ## Claim C10 — global cache invalidation -/

theorem uploadLoop_cacheCleared (files : List UploadFile) :
    ∀ (processed : ℕ) (errors logs attempted : List String),
      (uploadLoop files processed errors logs attempted).success = true →
      (uploadLoop files processed errors logs attempted).cacheCleared
        = true := by
  induction files with
  | nil =>
    intro processed errors logs attempted hs
    simp only [uploadLoop] at hs ⊢
    by_cases hp : 0 < processed
    · rw [if_pos hp]
    · rw [if_neg hp] at hs
      exact absurd (show (false : Bool) = true from hs) (by decide)
  | cons f rest ih =>
    intro processed errors logs attempted hs
    simp only [uploadLoop] at hs ⊢
    by_cases hext : allowedExts.contains (fileExt f.originalname) = true
    · rw [hext] at hs ⊢
      simp only [Bool.not_true, Bool.false_eq_true, if_false] at hs ⊢
      cases hout : f.outcome with
      | processed =>
        rw [hout] at hs
        exact ih _ _ _ _ hs
      | parseFail =>
        rw [hout] at hs
        exact absurd (show (false : Bool) = true from hs) (by decide)
      | saveFail =>
        rw [hout] at hs
        exact absurd (show (false : Bool) = true from hs) (by decide)
    · have hext2 : allowedExts.contains (fileExt f.originalname) = false :=
        Bool.eq_false_iff.mpr hext
      rw [hext2] at hs ⊢
      simp only [Bool.not_false, if_true] at hs ⊢
      exact ih _ _ _ _ hs

/-- Claim C10: cache invalidation is global.  `invalidateCache` empties
the whole process-wide map regardless of its contents (every user, every
operation); a successful batch upload triggers it, and a record deletion
or clear-all that returns `true` leaves the cache empty. -/
theorem claim10_global_invalidation :
    (∀ cache : List (String × CacheEntry), invalidateCache cache = []) ∧
    (∀ files : List UploadFile, (uploadPost files).success = true →
      (uploadPost files).cacheCleared = true) ∧
    (∀ (fail : Bool) (st : SvcState) (uid : String) (rid : ℕ),
      (deleteAttendanceRecord fail st uid rid).1 = true →
      (deleteAttendanceRecord fail st uid rid).2.cache = []) ∧
    (∀ (fail : Bool) (st : SvcState) (uid : String),
      (clearAllData fail st uid).1 = true →
      (clearAllData fail st uid).2.cache = []) := by
  refine ⟨?_, ?_, ?_, ?_⟩
  · intro cache; rfl
  · intro files hs
    unfold uploadPost at hs ⊢
    by_cases h0 : files.length = 0
    · rw [if_pos h0] at hs
      exact absurd (show (false : Bool) = true from hs) (by decide)
    · rw [if_neg h0] at hs ⊢
      by_cases h21 : 21 < files.length
      · rw [if_pos h21] at hs
        exact absurd (show (false : Bool) = true from hs) (by decide)
      · rw [if_neg h21] at hs ⊢
        exact uploadLoop_cacheCleared files 0 [] [] [] hs
  · intro fail st uid rid hres
    cases fail with
    | true => exact absurd (show (false : Bool) = true from hres) (by decide)
    | false => rfl
  · intro fail st uid hres
    cases fail with
    | true => exact absurd (show (false : Bool) = true from hres) (by decide)
    | false => rfl

/-- Witness for `claim10_global_invalidation`: a deletion by user "u"
empties a cache that held an entry of user "v". -/
theorem claim10_global_invalidation_witness :
    (deleteAttendanceRecord false demoSvcCached "u" 1).2.cache = [] :=
  claim10_global_invalidation.2.2.1 false demoSvcCached "u" 1 (by decide)

end AttendanceApp
